import Mathlib

/-!
# Verification of the Greek curriculum generator pipeline

Shallow embedding of the pure core of `src/greek_appv0.4_live.py`:
the calibration response parser (`analyze_curriculum_llm`), the skeleton
line parser, the lesson-section extraction, the lesson prompt builder,
and the session-state step function driven by the Streamlit script.

Strings are modelled as `List Char`.  Machinery that the Python code gets
from the standard library (`str.replace`, `str.split`, `str.strip`,
`eval` on literal text, `re.search` with a lazy group) is modelled
explicitly below, faithful to CPython behaviour on the fragment the
program exercises.
-/

/-- The backtick character, written via its code point. -/
def btick : Char := Char.ofNat 96

/-- Opening brace character. -/
def lbrace : Char := Char.ofNat 123

/-- Closing brace character. -/
def rbrace : Char := Char.ofNat 125

/-- `"```json"` fence token removed by `analyze_curriculum_llm`. -/
def fenceJson : List Char := [btick, btick, btick, 'j', 's', 'o', 'n']

/-- `"```python"` fence token removed by `analyze_curriculum_llm`. -/
def fencePython : List Char := [btick, btick, btick, 'p', 'y', 't', 'h', 'o', 'n']

/-- `"```"` fence token removed by `analyze_curriculum_llm`. -/
def fencePlain : List Char := [btick, btick, btick]

/-- Python `s.replace(pat, "")`: delete the non-overlapping occurrences of
`pat`, scanning the original string left to right.  Fuel-based recursion
(every removal or emission consumes at least one character, so fuel equal
to the input length always suffices); for an empty pattern the deletion is
a no-op, matching `replace("", "")`. -/
def stripTokAux (pat : List Char) : Nat → List Char → List Char
  | 0, s => s
  | fuel + 1, s =>
    match s with
    | [] => []
    | c :: rest =>
      if pat ≠ [] ∧ pat.isPrefixOf (c :: rest) then
        stripTokAux pat fuel (List.drop (pat.length - 1) rest)
      else
        c :: stripTokAux pat fuel rest

/-- Python `s.replace(pat, "")`, entry point. -/
def stripTok (pat s : List Char) : List Char :=
  stripTokAux pat s.length s

/-- Line 59 of the source: strip the three markdown fence tokens from the
model response before evaluating it. -/
def clean_response (s : List Char) : List Char :=
  stripTok fencePlain (stripTok fencePython (stripTok fenceJson s))

/-- Scalar values of the Python literal fragment the calibration response
can evaluate to. -/
inductive PyScalar where
  | int : Int → PyScalar
  | str : List Char → PyScalar
deriving DecidableEq, Repr

/-- Values of the Python literal fragment: a scalar, or a (flat) dict with
scalar keys and scalar values.  This covers every value the calibration
stage's `eval` is expected to produce. -/
inductive PyValue where
  | scalar : PyScalar → PyValue
  | dict : List (PyScalar × PyScalar) → PyValue
deriving DecidableEq, Repr

/-- Whitespace characters inside one source line (CPython tokenizer). -/
def isLineWs (c : Char) : Bool :=
  c = ' ' || c = '\t' || c = '\r'

/-- Whitespace characters that may separate tokens inside brackets,
where CPython's implicit line joining also allows newlines. -/
def isTokWs (c : Char) : Bool :=
  c = ' ' || c = '\t' || c = '\r' || c = '\n'

/-- Skip inter-token whitespace (inside brackets). -/
def skipWs (s : List Char) : List Char :=
  s.dropWhile isTokWs

/-- Hexadecimal digit value, for `\xhh` string escapes. -/
def hexVal (c : Char) : Option Nat :=
  if '0' ≤ c ∧ c ≤ '9' then some (c.toNat - '0'.toNat)
  else if 'a' ≤ c ∧ c ≤ 'f' then some (c.toNat - 'a'.toNat + 10)
  else if 'A' ≤ c ∧ c ≤ 'F' then some (c.toNat - 'A'.toNat + 10)
  else none

/-- Parse the body of a Python string literal delimited by quote `q`, the
opening quote already consumed.  Returns the decoded content and the rest
of the input after the closing quote.  Processes the escapes
`\\ \' \" \n \t \r \xhh` and backslash-newline (line continuation);
an unrecognized escape keeps the backslash and the escaped character
(CPython behaviour); a bare newline in the body is a syntax error. -/
def parseStrBody (q : Char) : List Char → Option (List Char × List Char)
  | [] => none
  | c :: r =>
    if c = q then some ([], r)
    else if c = '\n' then none
    else if c = '\r' then none
    else if c = '\\' then
      match r with
      | [] => none
      | e :: r2 =>
        if e = 'n' then (parseStrBody q r2).map (fun p => ('\n' :: p.1, p.2))
        else if e = 't' then (parseStrBody q r2).map (fun p => ('\t' :: p.1, p.2))
        else if e = 'r' then (parseStrBody q r2).map (fun p => ('\r' :: p.1, p.2))
        else if e = '\\' then (parseStrBody q r2).map (fun p => ('\\' :: p.1, p.2))
        else if e = '\'' then (parseStrBody q r2).map (fun p => ('\'' :: p.1, p.2))
        else if e = '"' then (parseStrBody q r2).map (fun p => ('"' :: p.1, p.2))
        else if e = '\n' then parseStrBody q r2
        else if e = 'x' then
          match r2 with
          | h1 :: h2 :: r3 =>
            match hexVal h1, hexVal h2 with
            | some d1, some d2 =>
              (parseStrBody q r3).map (fun p => (Char.ofNat (16 * d1 + d2) :: p.1, p.2))
            | _, _ => none
          | _ => none
        else (parseStrBody q r2).map (fun p => ('\\' :: e :: p.1, p.2))
    else (parseStrBody q r).map (fun p => (c :: p.1, p.2))

/-- Parse a nonempty run of decimal digits into a natural number.
A multi-digit literal with a leading zero is a Python 3 syntax error. -/
def parseNat (s : List Char) : Option (Nat × List Char) :=
  let digits := s.takeWhile Char.isDigit
  let rest := s.dropWhile Char.isDigit
  if digits = [] then none
  else if digits.head? = some '0' ∧ digits.length > 1 then none
  else some (digits.foldl (fun acc c => 10 * acc + (c.toNat - '0'.toNat)) 0, rest)

/-- Parse one scalar literal (string or integer, possibly negated),
with no leading whitespace. -/
def parseScalar : List Char → Option (PyScalar × List Char)
  | [] => none
  | c :: r =>
    if c = '\'' then (parseStrBody '\'' r).map (fun p => (PyScalar.str p.1, p.2))
    else if c = '"' then (parseStrBody '"' r).map (fun p => (PyScalar.str p.1, p.2))
    else if c = '-' then (parseNat r).map (fun p => (PyScalar.int (-(p.1 : Int)), p.2))
    else if c.isDigit then (parseNat (c :: r)).map (fun p => (PyScalar.int (p.1 : Int), p.2))
    else none

/-- Python dict assignment semantics for a display with duplicate keys:
the first occurrence keeps its position, the last value wins. -/
def dictInsert (entries : List (PyScalar × PyScalar)) (k v : PyScalar) :
    List (PyScalar × PyScalar) :=
  match entries with
  | [] => [(k, v)]
  | (k', v') :: rest => if k' = k then (k', v) :: rest else (k', v') :: dictInsert rest k v

/-- Parse the entries of a dict display, the opening brace already
consumed.  `fuel` bounds the recursion (one unit per entry); the callers
supply `input length + 1`, which always suffices since every entry
consumes at least one character. -/
def parseEntriesAux : Nat → List Char → List (PyScalar × PyScalar) →
    Option (List (PyScalar × PyScalar) × List Char)
  | 0, _, _ => none
  | fuel + 1, s, acc =>
    match skipWs s with
    | [] => none
    | c :: r =>
      if c = rbrace then some (acc, r)
      else
        match parseScalar (c :: r) with
        | none => none
        | some (k, r1) =>
          match skipWs r1 with
          | [] => none
          | c1 :: r2 =>
            if c1 = ':' then
              match parseScalar (skipWs r2) with
              | none => none
              | some (v, r3) =>
                match skipWs r3 with
                | [] => none
                | c2 :: r4 =>
                  if c2 = ',' then parseEntriesAux fuel r4 (dictInsert acc k v)
                  else if c2 = rbrace then some (dictInsert acc k v, r4)
                  else none
            else none

/-- Parse one expression of the literal fragment: a flat dict display or a
scalar.  This models Python `eval`'s grammar restricted to the fragment the
calibration stage exchanges with the model; any text outside the fragment
is reported as a failure (as `eval` raising). -/
def parseTop (s : List Char) : Option (PyValue × List Char) :=
  match s with
  | [] => none
  | c :: r =>
    if c = lbrace then
      (parseEntriesAux (r.length + 1) r []).map (fun p => (PyValue.dict p.1, p.2))
    else
      (parseScalar (c :: r)).map (fun p => (PyValue.scalar p.1, p.2))

/-- After the first newline preceding the expression, CPython `eval` skips
blank lines but raises an `IndentationError` if the expression starts after
line-leading whitespace.  The flag records whether whitespace has been seen
on the current line. -/
def skipStrict : Bool → List Char → Option (List Char)
  | _, [] => some []
  | indent, c :: r =>
    if c = '\n' then skipStrict false r
    else if isLineWs c then skipStrict true r
    else if indent then none
    else some (c :: r)

/-- Leading whitespace handling of CPython `eval`: indentation is allowed
on the first input line; whitespace-only lines are skipped; if the
expression starts on a later line it must start in column zero, otherwise
an `IndentationError` is raised (`none`). -/
def skipLeading (s : List Char) : Option (List Char) :=
  match s.dropWhile isLineWs with
  | [] => some []
  | c :: r => if c = '\n' then skipStrict false r else some (c :: r)

/-- All remaining lines are whitespace-only and newline-terminated (a
final whitespace-only line not ending in a newline raises an
`IndentationError` in CPython `eval`).  The flag records pending
whitespace on the current line. -/
def blankRun : Bool → List Char → Bool
  | pending, [] => !pending
  | _, c :: r =>
    if c = '\n' then blankRun false r
    else if isLineWs c then blankRun true r
    else false

/-- Trailing text accepted by CPython `eval` after the expression:
whitespace to the end of the expression's line, then only blank
newline-terminated lines. -/
def trailingOk (s : List Char) : Bool :=
  match s.dropWhile isLineWs with
  | [] => true
  | c :: r => if c = '\n' then blankRun false r else false

/-- Model of Python `eval` on the literal fragment: `some v` when the text
is a literal of the fragment (surrounded by whitespace `eval` accepts),
`none` when `eval` would raise. -/
def pyEval (s : List Char) : Option PyValue :=
  match skipLeading s with
  | none => none
  | some s1 =>
    match parseTop s1 with
    | none => none
    | some (v, rest) => if trailingOk rest then some v else none

/-- The sentinel mapping returned by `analyze_curriculum_llm` when the
cleaned response fails to evaluate (lines 62-63 of the source). -/
def SENTINEL : PyValue :=
  PyValue.dict
    [(PyScalar.str ("audience").toList, PyScalar.str ("Error parsing").toList),
     (PyScalar.str ("level").toList, PyScalar.str ("Error").toList),
     (PyScalar.str ("grading").toList, PyScalar.str ("Error").toList),
     (PyScalar.str ("themes").toList, PyScalar.str ("Error").toList)]

/-- Lines 57-63 of the source, the pure part of `analyze_curriculum_llm`:
strip the fence tokens from the model response, evaluate the cleaned text,
and fall back to the sentinel mapping on any evaluation failure. -/
def analyze_curriculum_llm (response_text : List Char) : PyValue :=
  match pyEval (clean_response response_text) with
  | some v => v
  | none => SENTINEL

/-! ## Skeleton stage (step 2): line parsing, lines 155-170 of the source -/

/-- Whitespace stripped by Python `str.strip()` (ASCII fragment). -/
def isStripWs (c : Char) : Bool :=
  c = ' ' || c = '\t' || c = '\n' || c = '\r' || c = Char.ofNat 11 || c = Char.ofNat 12

/-- Python `s.strip()`. -/
def pyStrip (s : List Char) : List Char :=
  ((s.dropWhile isStripWs).reverse.dropWhile isStripWs).reverse

/-- Python `s.split(sep)` for a one-character separator: non-collapsing
split, `"".split(sep) = [""]`. -/
def pySplitChar (sep : Char) : List Char → List (List Char)
  | [] => [[]]
  | c :: rest =>
    if c = sep then [] :: pySplitChar sep rest
    else
      match pySplitChar sep rest with
      | [] => [[c]]
      | p :: ps => (c :: p) :: ps

/-- One row of the syllabus table (`Week`, `Theme`, `Grammar Focus`,
`Status` columns of the DataFrame). -/
structure Row where
  week : List Char
  theme : List Char
  grammar : List Char
  status : List Char
deriving DecidableEq, Repr

/-- Pending status marker. -/
def RED : List Char := ("🔴").toList

/-- Complete status marker. -/
def GREEN : List Char := ("🟢").toList

/-- Default grammar field when a line has a separator but no second part
(unreachable for a one-character separator, see
`skeleton_parser_per_line`). -/
def REVIEW : List Char := ("Review").toList

/-- The `f"Week {i+1}"` label. -/
def weekLabel (n : Nat) : List Char := ("Week ").toList ++ Nat.toDigits 10 n

/-- Lines 160-164 of the source: a line containing `|` becomes a row with
the first two `|`-separated parts stripped; other lines produce nothing. -/
def rowOfLine (i : Nat) (line : List Char) : Option Row :=
  if line.contains '|' then
    match pySplitChar '|' line with
    | p0 :: p1 :: _ => some ⟨weekLabel (i + 1), pyStrip p0, pyStrip p1, RED⟩
    | [p0] => some ⟨weekLabel (i + 1), pyStrip p0, REVIEW, RED⟩
    | [] => none
  else none

/-- Line 84 of the source: `response.text.strip().split("\n")`. -/
def generate_skeleton_lines (raw : List Char) : List (List Char) :=
  pySplitChar '\n' (pyStrip raw)

/-- Lines 158-164: the enumerate-and-filter loop over the lines. -/
def parseSkeletonRows (lines : List (List Char)) : List Row :=
  lines.enum.filterMap (fun p => rowOfLine p.1 p.2)

/-- Line 168: the 34 generic placeholder rows installed when no line
parses. -/
def placeholderRows : List Row :=
  (List.range 34).map (fun i => ⟨weekLabel (i + 1), ("Topic").toList, ("Grammar").toList, RED⟩)

/-- Lines 155-170: the syllabus table stored after skeleton generation. -/
def skeletonTable (raw : List Char) : List Row :=
  let rows := parseSkeletonRows (generate_skeleton_lines raw)
  if rows = [] then placeholderRows else rows

/-! ## Lesson preview parsing, lines 264-275 of the source -/

/-- Index of the first occurrence of `pat` in `s` (`None` if absent),
like `str.find` restricted to a successful/failed result. -/
def findAt : List Char → List Char → Option Nat
  | pat, [] => if pat = [] then some 0 else none
  | pat, c :: rest =>
    if pat.isPrefixOf (c :: rest) then some 0
    else (findAt pat rest).map (· + 1)

/-- `re.search(r'<TAG>(.*?)</TAG>', s, re.DOTALL).group(1)`: the leftmost
match starts at the first occurrence of the opening tag followed
(anywhere after it) by the closing tag, and the lazy group captures up to
the first closing tag after the opening tag. -/
def searchLazy (openT closeT s : List Char) : Option (List Char) :=
  match findAt openT s with
  | none => none
  | some i =>
    let after := s.drop (i + openT.length)
    match findAt closeT after with
    | some j => some (after.take j)
    | none => none

/-- Opening tag of the teacher guide section. -/
def TEACHER_OPEN : List Char := ("<TEACHER>").toList

/-- Closing tag of the teacher guide section. -/
def TEACHER_CLOSE : List Char := ("</TEACHER>").toList

/-- Opening tag of the student text section. -/
def STUDENT_TEXT_OPEN : List Char := ("<STUDENT_TEXT>").toList

/-- Closing tag of the student text section. -/
def STUDENT_TEXT_CLOSE : List Char := ("</STUDENT_TEXT>").toList

/-- Opening tag of the exercises section. -/
def EXERCISES_OPEN : List Char := ("<STUDENT_EXERCISES>").toList

/-- Closing tag of the exercises section. -/
def EXERCISES_CLOSE : List Char := ("</STUDENT_EXERCISES>").toList

/-- Error marker for a missing teacher guide section. -/
def ERR_TEACHER : List Char := ("Error parsing Teacher Guide").toList

/-- Error marker for a missing student text section. -/
def ERR_STUDENT : List Char := ("Error parsing Student Text").toList

/-- Error marker for a missing exercises section. -/
def ERR_EXERCISES : List Char := ("Error parsing Exercises").toList

/-- One `try: re.search(...).group(1).strip() except: marker` block. -/
def extractSection (openT closeT err raw : List Char) : List Char :=
  match searchLazy openT closeT raw with
  | some c => pyStrip c
  | none => err

/-- Lines 264-275: the three independent section extractions
(teacher guide, student text, student exercises). -/
def parse_lesson_sections (raw : List Char) : List Char × List Char × List Char :=
  (extractSection TEACHER_OPEN TEACHER_CLOSE ERR_TEACHER raw,
   extractSection STUDENT_TEXT_OPEN STUDENT_TEXT_CLOSE ERR_STUDENT raw,
   extractSection EXERCISES_OPEN EXERCISES_CLOSE ERR_EXERCISES raw)

/-! ## Lesson prompt construction, lines 222-248 of the source -/

/-- The calibration profile locked at step 1 (the four text fields of the
`locked_config` dict). -/
structure Config where
  audience : List Char
  level : List Char
  grading : List Char
  themes : List Char
deriving DecidableEq, Repr

/-- Body of Python `repr` for a string under quote `q` (ASCII-printable
fragment: escapes backslash, the quote and control whitespace). -/
def pyReprStrBody (q : Char) : List Char → List Char
  | [] => []
  | c :: r =>
    (if c = '\\' then ['\\', '\\']
     else if c = q then ['\\', q]
     else if c = '\n' then ['\\', 'n']
     else if c = '\r' then ['\\', 'r']
     else if c = '\t' then ['\\', 't']
     else [c]) ++ pyReprStrBody q r

/-- Python `repr` of a string: single quotes, or double quotes when the
text holds a single quote but no double quote. -/
def pyReprStr (s : List Char) : List Char :=
  let q := if s.contains '\'' ∧ ¬ s.contains '"' then '"' else '\''
  q :: pyReprStrBody q s ++ [q]

/-- Python `f"{config}"`: the repr of the four-field `locked_config`
dict. -/
def reprConfig (c : Config) : List Char :=
  lbrace :: ("'audience': ").toList ++ pyReprStr c.audience ++
    (", 'level': ").toList ++ pyReprStr c.level ++
    (", 'grading': ").toList ++ pyReprStr c.grading ++
    (", 'themes': ").toList ++ pyReprStr c.themes ++ [rbrace]

/-- Line 234: the strict-source instruction. -/
def STRICT_INSTR : List Char := ("INSTRUCTIONS: Use SOURCE MATERIAL strictly.").toList

/-- Line 234: the creative instruction. -/
def CREATIVE_INSTR : List Char := ("INSTRUCTIONS: Write creative Greek text.").toList

/-- Line 235: the accessibility constraint. -/
def ACCESS_CONSTRAINT : List Char := ("CONSTRAINT: Dyslexia-friendly, simple sentences.").toList

/-- Lines 229-231: the per-file wrapper appended to `source_text`. -/
def source_block (nm tx : List Char) : List Char :=
  '\n' :: ("SOURCE (").toList ++ nm ++ ("):\n").toList ++ tx ++ ['\n']

/-- Lines 224-231: the concatenation of the wrapped source excerpts,
one `(name, extracted text)` pair per uploaded file. -/
def source_text (files : List (List Char × List Char)) : List Char :=
  (files.map (fun p => source_block p.1 p.2)).flatten

/-- Line 234: strict instruction when `source_text` is truthy (nonempty),
creative otherwise. -/
def instruction_mode (files : List (List Char × List Char)) : List Char :=
  if source_text files = [] then CREATIVE_INSTR else STRICT_INSTR

/-- Line 235: the accessibility constraint when the checkbox is set. -/
def access_mode (b : Bool) : List Char :=
  if b then ACCESS_CONSTRAINT else []

/-- Fixed chunk of the lesson prompt before `CONTEXT:`. -/
def LP1 : List Char := ("\n        CONTEXT: ").toList

/-- Fixed chunk of the lesson prompt before `WEEK:`. -/
def LP2 : List Char := ("\n        WEEK: ").toList

/-- Fixed chunk of the lesson prompt before `TOPIC:`. -/
def LP3 : List Char := (" | TOPIC: ").toList

/-- Fixed chunk of the lesson prompt before `GRAMMAR:`. -/
def LP4 : List Char := (" | GRAMMAR: ").toList

/-- Fixed chunk of the lesson prompt before `TEACHER NOTES:`. -/
def LP5 : List Char := ("\n        TEACHER NOTES: ").toList

/-- Fixed chunk of the lesson prompt before `ACCESSIBILITY:`. -/
def LP6 : List Char := ("\n        ACCESSIBILITY: ").toList

/-- Fixed chunk of the lesson prompt before the instruction line. -/
def LP7 : List Char := ("\n        ").toList

/-- Fixed chunk of the lesson prompt before the source material. -/
def LP8 : List Char := ("\n        \n        SOURCE MATERIAL:\n        ").toList

/-- Fixed tail of the lesson prompt after the source material. -/
def LP9 : List Char :=
  (" \n\n        OUTPUT: Generte XML with <TEACHER>, <STUDENT_TEXT> (in Greek), <STUDENT_EXERCISES> (in Greek).\n        ").toList

/-- Lines 237-248: the full lesson prompt f-string. -/
def full_prompt (cfg : Config) (week topic grammar notes : List Char)
    (accessibility : Bool) (files : List (List Char × List Char)) : List Char :=
  LP1 ++ reprConfig cfg ++ LP2 ++ week ++ LP3 ++ topic ++ LP4 ++ grammar ++
    LP5 ++ notes ++ LP6 ++ access_mode accessibility ++ LP7 ++
    instruction_mode files ++ LP8 ++ (source_text files).take 20000 ++ LP9

/-! ## Session state machine (the Streamlit script re-run loop) -/

/-- Python truthiness for the modelled values. -/
def pyTruthy : PyValue → Bool
  | .scalar (.int n) => n ≠ 0
  | .scalar (.str s) => s ≠ []
  | .dict d => d ≠ []

/-- A failure raised by the model client (network/auth/quota/remote). -/
structure ModelError where
  message : List Char
deriving DecidableEq, Repr

/-- The session state held in `st.session_state` (lines 17-20), plus
whether an API key has been entered in the sidebar. -/
structure AppState where
  locked_config : Option Config
  syllabus_df : Option (List Row)
  generated_lessons : List (List Char × List Char)
  analyzed_curriculum : PyValue
  api_key : Bool
deriving DecidableEq, Repr

/-- The initial session state (lines 17-20). -/
def initState : AppState :=
  { locked_config := none, syllabus_df := none, generated_lessons := [],
    analyzed_curriculum := PyValue.dict [], api_key := false }

/-- One user action on the interactive surface.  Model responses and
extraction results are parameters of the event (external
non-determinism). -/
inductive Event where
  | analyzeDoc : Option (List Char) → Except ModelError (List Char) → Event
  | lockSubmit : Config → Event
  | genSkeleton : Except ModelError (List Char) → Event
  | editSyllabus : List Row → Event
  | resetSyllabus : Event
  | genLesson : List Char → List Char → List Char → List Char → Bool →
      List (List Char × List Char) → Except ModelError (List Char) → Event

/-- The `Week` column values offered by the week selector (line 199). -/
def weekOptions (rows : List Row) : List (List Char) :=
  rows.map Row.week

/-- Lines 255-256: set the status of the first row whose `Week` equals
`week` to the complete marker. -/
def markComplete (rows : List Row) (week : List Char) : List Row :=
  match rows with
  | [] => []
  | r :: rest =>
    if r.week = week then { r with status := GREEN } :: rest
    else r :: markComplete rest week

/-- Python dict assignment `d[k] = v`: replace in place or append. -/
def assocSet (m : List (List Char × List Char)) (k v : List Char) :
    List (List Char × List Char) :=
  match m with
  | [] => [(k, v)]
  | (k', v') :: rest => if k' = k then (k', v) :: rest else (k', v') :: assocSet rest k v

/-- One script run handling one user action: `.error` when the model call
raises (the exception propagates out of the handler before any state
assignment), `.ok` with the updated state otherwise.  Guards mirror the
rendering conditions of the script (widget gating). -/
def stepE (s : AppState) (e : Event) : Except ModelError AppState :=
  match e with
  | .analyzeDoc ext resp =>
    if s.api_key ∧ ¬ pyTruthy s.analyzed_curriculum then
      match ext with
      | none => .ok s
      | some _ =>
        match resp with
        | .error err => .error err
        | .ok rtext => .ok { s with analyzed_curriculum := analyze_curriculum_llm rtext }
    else .ok s
  | .lockSubmit cfg =>
    if pyTruthy s.analyzed_curriculum then .ok { s with locked_config := some cfg }
    else .ok s
  | .genSkeleton resp =>
    if s.locked_config.isSome ∧ s.syllabus_df = none then
      if s.api_key then
        match resp with
        | .error err => .error err
        | .ok raw => .ok { s with syllabus_df := some (skeletonTable raw) }
      else .ok s
    else .ok s
  | .editSyllabus rows =>
    if s.syllabus_df.isSome then .ok { s with syllabus_df := some rows } else .ok s
  | .resetSyllabus =>
    if s.syllabus_df.isSome then .ok { s with syllabus_df := none } else .ok s
  | .genLesson week _ _ _ _ _ resp =>
    match s.syllabus_df with
    | none => .ok s
    | some rows =>
      if rows ≠ [] ∧ week ∈ weekOptions rows ∧ s.api_key then
        match resp with
        | .error err => .error err
        | .ok out =>
          .ok { s with generated_lessons := assocSet s.generated_lessons week out,
                       syllabus_df := some (markComplete rows week) }
      else .ok s

/-- The session state after one action: Streamlit catches the exception,
renders it, and keeps the session (and its state) alive. -/
def step (s : AppState) (e : Event) : AppState :=
  match stepE s e with
  | .ok s' => s'
  | .error _ => s

/-- The model response carried by an event, if the event involves a
generation call. -/
def eventResp : Event → Option (Except ModelError (List Char))
  | .analyzeDoc _ r => some r
  | .genSkeleton r => some r
  | .genLesson _ _ _ _ _ _ r => some r
  | _ => none

/-- Whether the handler for `e` reaches the model client's generate call
in state `s` (the gating of lines 113, 144-153, 194-222). -/
def modelCallReached (s : AppState) : Event → Bool
  | .analyzeDoc ext _ => s.api_key && !(pyTruthy s.analyzed_curriculum) && ext.isSome
  | .genSkeleton _ => s.locked_config.isSome && s.syllabus_df.isNone && s.api_key
  | .genLesson week _ _ _ _ _ _ =>
    match s.syllabus_df with
    | some rows => !(rows.isEmpty) && (weekOptions rows).contains week && s.api_key
    | none => false
  | _ => false

/-- The step-2 generate button is rendered (line 149-150). -/
def skeletonGenEnabled (s : AppState) : Bool :=
  s.locked_config.isSome && s.syllabus_df.isNone

/-! ## Concrete inputs and auxiliary notions used by the verification -/

/-- The `audience` key. -/
def audKey : List Char := ("audience").toList

/-- The `level` key. -/
def levKey : List Char := ("level").toList

/-- The `grading` key. -/
def graKey : List Char := ("grading").toList

/-- The `themes` key. -/
def themesKey : List Char := ("themes").toList

/-- Characters that pass through a double-quoted Python string literal
unchanged and through the fence cleaning untouched: no quote, no
backslash, no line break, no backtick. -/
def PlainVal (s : List Char) : Prop :=
  ∀ c ∈ s, c ≠ '"' ∧ c ≠ '\\' ∧ c ≠ '\n' ∧ c ≠ '\r' ∧ c ≠ btick

/-- The text `"k": "v"` of one double-quoted mapping entry. -/
def entryText (k v : List Char) : List Char :=
  '"' :: k ++ '"' :: ':' :: ' ' :: '"' :: v ++ ['"']

/-- The body (after the opening brace) of the canonical four-key mapping
literal. -/
def mkMappingInner (a l g th : List Char) : List Char :=
  entryText audKey a ++ ',' :: ' ' :: entryText levKey l ++ ',' :: ' ' ::
    entryText graKey g ++ ',' :: ' ' :: entryText themesKey th ++ [rbrace]

/-- The canonical four-key mapping literal
`{"audience": "a", "level": "l", "grading": "g", "themes": "th"}`. -/
def mkMappingLiteral (a l g th : List Char) : List Char :=
  lbrace :: mkMappingInner a l g th

/-- A response wrapped in markdown fences: ```` ```json … ``` ````. -/
def wrapJsonFence (s : List Char) : List Char :=
  fenceJson ++ '\n' :: s ++ '\n' :: fencePlain

/-- The four-entry dict value of the canonical mapping literal. -/
def fourFields (a l g th : List Char) : List (PyScalar × PyScalar) :=
  [(PyScalar.str audKey, PyScalar.str a), (PyScalar.str levKey, PyScalar.str l),
   (PyScalar.str graKey, PyScalar.str g), (PyScalar.str themesKey, PyScalar.str th)]

/-- A response that is a valid Python expression but not a mapping:
the single character `5`. -/
def exFive : List Char := ['5']

/-- A response whose mapping literal encodes three backticks and `json`
in the audience value through `\x60` escapes: the response text contains
no backtick character, yet the parsed field value is exactly the
```` ```json ```` fence token. -/
def fenceEscapeResponse : List Char :=
  ("\x7b\"audience\": \"\\x60\\x60\\x60json\", \"level\": \"E\", \"grading\": \"E\", \"themes\": \"E\"\x7d").toList

/-- A sample locked profile. -/
def cfgA : Config :=
  ⟨("8th grade").toList, ("A2").toList, ("E criteria").toList, ("myths").toList⟩

/-- A different profile, used to exhibit the overwrite. -/
def cfgB : Config :=
  ⟨("7th grade").toList, ("B1").toList, ("other criteria").toList, ("geography").toList⟩

/-- A nonempty (truthy) analysis result. -/
def analyzedEx : PyValue := PyValue.dict [(PyScalar.str ['k'], PyScalar.str ['v'])]

/-- A session that has analyzed a document but not locked a profile. -/
def sDraft : AppState :=
  { locked_config := none, syllabus_df := none, generated_lessons := [],
    analyzed_curriculum := analyzedEx, api_key := true }

/-- A session with a locked profile and no skeleton yet. -/
def sLocked : AppState := { sDraft with locked_config := some cfgA }

/-- A sample syllabus row. -/
def rowW1 : Row := ⟨("Week 1").toList, ("Myths").toList, ("Nouns").toList, RED⟩

/-- A session with a one-row skeleton. -/
def sSkeleton : AppState := { sLocked with syllabus_df := some [rowW1] }

/-- A sample model failure. -/
def errEx : ModelError := ⟨("quota exceeded").toList⟩

/-- A skeleton response with two separator lines out of three. -/
def exSkeletonRaw : List Char := ("Myths: Zeus | Noun Gender\nno separator\nAthens|Adjectives ").toList

/-- An empty config for prompt examples. -/
def cfg0 : Config := ⟨[], [], [], []⟩

/-- One uploaded source file whose extracted text is empty. -/
def exEmptyFile : List (List Char × List Char) := [(['a'], [])]

/-- Text between the first and second separator of a line (the whole
remainder when there is a single separator): the `parts[1]` of
`line.split("|")`. -/
def secondPart (sep : Char) (line : List Char) : List Char :=
  ((line.dropWhile (· != sep)).tail).takeWhile (· != sep)

/-- The status of the first row carrying the given week label. -/
def firstStatus (rows : List Row) (w : List Char) : Option (List Char) :=
  (rows.find? (fun r => r.week == w)).map Row.status

example : clean_response (("```json").toList ++ ('\n' :: ('5' :: ['\n']) ++ ("```").toList)) =
    '\n' :: '5' :: ['\n'] := by decide

example : pyEval (('5' :: [])) = some (PyValue.scalar (PyScalar.int 5)) := by decide

example : analyze_curriculum_llm (("garbage text, not a dict").toList) = SENTINEL := by decide

example :
    parse_lesson_sections (("<TEACHER>A</TEACHER>").toList) =
      (['A'], ERR_STUDENT, ERR_EXERCISES) := by decide

example :
    parseSkeletonRows (generate_skeleton_lines (("Myths: Zeus | Noun Gender\nno separator line\nGeography | Adjectives").toList)) =
      [⟨("Week 1").toList, ("Myths: Zeus").toList, ("Noun Gender").toList, RED⟩,
       ⟨("Week 3").toList, ("Geography").toList, ("Adjectives").toList, RED⟩] := by decide

example : (skeletonTable (("no pipes here").toList)).length = 34 := by decide

/-! ## Helper lemmas: fence-token removal -/

theorem isPrefixOf_cons_ne (h0 c : Char) (ps rest : List Char) (hc : c ≠ h0) :
    (h0 :: ps).isPrefixOf (c :: rest) = false := by
  simp [List.isPrefixOf, beq_eq_false_iff_ne, Ne.symm hc]

theorem stripTokAux_all_ne (h0 : Char) (ps : List Char) :
    ∀ (fuel : Nat) (s : List Char), (∀ c ∈ s, c ≠ h0) →
      stripTokAux (h0 :: ps) fuel s = s := by
  intro fuel
  induction fuel with
  | zero => intro s _; rfl
  | succ f ih =>
    intro s hs
    cases s with
    | nil => rfl
    | cons c rest =>
      have hc : c ≠ h0 := hs c (List.mem_cons_self c rest)
      simp only [stripTokAux, isPrefixOf_cons_ne h0 c ps rest hc, Bool.false_eq_true,
        and_false, if_false, ne_eq, reduceCtorEq, not_false_eq_true, and_true]
      exact congrArg (c :: ·) (ih rest (fun c' h' => hs c' (List.mem_cons_of_mem c h')))

theorem findAt_nil_of_ne (pat : List Char) (hp : pat ≠ []) : findAt pat [] = none := by
  simp [findAt, hp]

theorem findAt_none_cons (h0 c : Char) (ps rest : List Char) (hc : c ≠ h0)
    (hr : findAt (h0 :: ps) rest = none) : findAt (h0 :: ps) (c :: rest) = none := by
  simp [findAt, isPrefixOf_cons_ne h0 c ps rest hc, hr]

theorem findAt_none_append (h0 : Char) (ps : List Char) :
    ∀ (u v : List Char), (∀ c ∈ u, c ≠ h0) → findAt (h0 :: ps) v = none →
      findAt (h0 :: ps) (u ++ v) = none := by
  intro u
  induction u with
  | nil => intro v _ hv; simpa using hv
  | cons c u' ih =>
    intro v hu hv
    have hc : c ≠ h0 := hu c (List.mem_cons_self c u')
    exact findAt_none_cons h0 c ps (u' ++ v) hc
      (ih v (fun c' h' => hu c' (List.mem_cons_of_mem c h')) hv)

theorem stripTokAux_no_occur (h0 : Char) (ps : List Char) :
    ∀ (fuel : Nat) (s : List Char), findAt (h0 :: ps) s = none →
      stripTokAux (h0 :: ps) fuel s = s := by
  intro fuel
  induction fuel with
  | zero => intro s _; rfl
  | succ f ih =>
    intro s hs
    cases s with
    | nil => rfl
    | cons c rest =>
      have hpre : (h0 :: ps).isPrefixOf (c :: rest) = false := by
        by_contra hcontra
        have : (h0 :: ps).isPrefixOf (c :: rest) = true := by
          cases h : (h0 :: ps).isPrefixOf (c :: rest) with
          | true => rfl
          | false => exact absurd h hcontra
        simp [findAt, this] at hs
      have hrest : findAt (h0 :: ps) rest = none := by
        simp only [findAt, hpre, Bool.false_eq_true, if_false] at hs
        exact Option.map_eq_none.mp hs
      simp only [stripTokAux, hpre, Bool.false_eq_true, and_false, if_false]
      exact congrArg (c :: ·) (ih rest hrest)

theorem stripTokAux_append (h0 : Char) (ps : List Char) :
    ∀ (u : List Char) (fuel : Nat) (v : List Char), (∀ c ∈ u, c ≠ h0) →
      stripTokAux (h0 :: ps) (u.length + fuel) (u ++ v) =
        u ++ stripTokAux (h0 :: ps) fuel v := by
  intro u
  induction u with
  | nil => intro fuel v _; simp
  | cons c u' ih =>
    intro fuel v hu
    have hc : c ≠ h0 := hu c (List.mem_cons_self c u')
    have hlen : (c :: u').length + fuel = (u'.length + fuel) + 1 := by
      simp [List.length_cons]; omega
    rw [hlen]
    simp only [List.cons_append, stripTokAux,
      isPrefixOf_cons_ne h0 c ps (u' ++ v) hc, Bool.false_eq_true, and_false, if_false]
    exact congrArg (c :: ·) (ih fuel v (fun c' h' => hu c' (List.mem_cons_of_mem c h')))

/-! ## Helper lemmas: no fence token survives the cleaning pass -/

theorem strip3_prefix_one (fuel : Nat) (s : List Char)
    (h : [btick] <+: stripTokAux fencePlain fuel s) : [btick] <+: s := by
  cases fuel with
  | zero => exact h
  | succ f =>
    cases s with
    | nil => simp [stripTokAux] at h
    | cons c rest =>
      by_cases hpre : fencePlain.isPrefixOf (c :: rest) = true
      · have hp : fencePlain <+: c :: rest := by
          rw [← List.isPrefixOf_iff_prefix]; exact hpre
        have hc : btick = c := by
          rcases hp with ⟨t, ht⟩
          simp [fencePlain] at ht
          exact ht.1
        subst hc
        exact ⟨rest, rfl⟩
      · simp only [stripTokAux, hpre, Bool.false_eq_true, and_false, if_false] at h
        rcases h with ⟨t, ht⟩
        simp only [List.cons_append, List.nil_append, List.cons.injEq] at ht
        exact ⟨rest, by simp [ht.1]⟩

theorem strip3_prefix_two (fuel : Nat) (s : List Char)
    (h : [btick, btick] <+: stripTokAux fencePlain fuel s) : [btick, btick] <+: s := by
  cases fuel with
  | zero => exact h
  | succ f =>
    cases s with
    | nil => simp [stripTokAux] at h
    | cons c rest =>
      by_cases hpre : fencePlain.isPrefixOf (c :: rest) = true
      · have hp : fencePlain <+: c :: rest := by
          rw [← List.isPrefixOf_iff_prefix]; exact hpre
        rcases hp with ⟨t, ht⟩
        simp only [fencePlain, List.cons_append, List.nil_append, List.cons.injEq] at ht
        obtain ⟨hc, hrest⟩ := ht
        refine ⟨btick :: t, ?_⟩
        simp [← hc, ← hrest]
      · simp only [stripTokAux, hpre, Bool.false_eq_true, and_false, if_false] at h
        rcases h with ⟨t, ht⟩
        simp only [List.cons_append, List.nil_append, List.cons.injEq] at ht
        obtain ⟨hc, hrest⟩ := ht
        have h1 : [btick] <+: stripTokAux fencePlain f rest :=
          ⟨t, by simpa using hrest⟩
        have h2 : [btick] <+: rest := strip3_prefix_one f rest h1
        rcases h2 with ⟨t2, ht2⟩
        exact ⟨t2, by rw [← hc, ← ht2]; simp⟩

theorem strip3_no_triple :
    ∀ (fuel : Nat) (s : List Char), s.length ≤ fuel →
      ¬ (fencePlain <:+: stripTokAux fencePlain fuel s) := by
  intro fuel
  induction fuel with
  | zero =>
    intro s hs
    have : s = [] := List.length_eq_zero.mp (Nat.le_zero.mp hs)
    subst this
    intro h
    rcases h with ⟨u, t, hut⟩
    simp [stripTokAux, fencePlain] at hut
  | succ f ih =>
    intro s hs
    cases s with
    | nil =>
      intro h
      rcases h with ⟨u, t, hut⟩
      simp [stripTokAux, fencePlain] at hut
    | cons c rest =>
      have hrl : rest.length ≤ f := by simp [List.length_cons] at hs; omega
      by_cases hpre : fencePlain.isPrefixOf (c :: rest) = true
      · simp only [stripTokAux, hpre, and_true]
        rw [if_pos (by simp [fencePlain])]
        exact ih (List.drop (fencePlain.length - 1) rest) (by
          simp only [List.length_drop]
          omega)
      · simp only [stripTokAux, hpre, Bool.false_eq_true, and_false, if_false]
        intro h
        rcases List.infix_cons_iff.mp h with hleft | hright
        · rcases hleft with ⟨t, ht⟩
          simp only [fencePlain, List.cons_append, List.nil_append, List.cons.injEq] at ht
          obtain ⟨hc, hrest⟩ := ht
          have h2 : [btick, btick] <+: stripTokAux fencePlain f rest :=
            ⟨t, by simpa [fencePlain] using hrest⟩
          have h3 : [btick, btick] <+: rest := strip3_prefix_two f rest h2
          rcases h3 with ⟨t3, ht3⟩
          have : fencePlain.isPrefixOf (c :: rest) = true := by
            rw [List.isPrefixOf_iff_prefix]
            refine ⟨t3, ?_⟩
            rw [← hc, ← ht3]
            simp [fencePlain]
          exact hpre this
        · exact ih rest hrl hright

/-- C10 (corrected): the cleaning pass removes every literal occurrence of
the fence tokens anywhere in the response — the cleaned text can never
contain `"```"` (and hence neither `"```json"` nor `"```python"`), no
matter where the tokens occurred.  The original claim's conclusion about
parsed field values is nevertheless false (see
`fence_token_escape_cex`): a value can encode backticks through string
escapes, which the cleaning pass cannot see. -/
theorem fence_tokens_removed_amended (s : List Char) :
    ¬ (fencePlain <:+: clean_response s) ∧
    ¬ (fenceJson <:+: clean_response s) ∧
    ¬ (fencePython <:+: clean_response s) := by
  have hplain : ¬ (fencePlain <:+: clean_response s) := by
    unfold clean_response stripTok
    exact strip3_no_triple _ _ le_rfl
  refine ⟨hplain, fun h => hplain ?_, fun h => hplain ?_⟩
  · exact List.IsInfix.trans ⟨[], ['j', 's', 'o', 'n'], rfl⟩ h
  · exact List.IsInfix.trans ⟨[], ['p', 'y', 't', 'h', 'o', 'n'], rfl⟩ h

/-- Witness for `fence_tokens_removed_amended` at a concrete response. -/
theorem fence_tokens_removed_witness :
    ¬ (fencePlain <:+: clean_response fenceEscapeResponse) :=
  (fence_tokens_removed_amended fenceEscapeResponse).1

/-- C10 counterexample: a response containing no backtick character at all
(`\x60` escapes only) evaluates to a mapping whose `audience` value is
exactly the `"```json"` token, so a parsed field value does contain the
fence tokens even though the cleaning ran. -/
theorem fence_token_escape_cex :
    analyze_curriculum_llm fenceEscapeResponse =
      PyValue.dict
        [(PyScalar.str audKey, PyScalar.str fenceJson),
         (PyScalar.str levKey, PyScalar.str ['E']),
         (PyScalar.str graKey, PyScalar.str ['E']),
         (PyScalar.str themesKey, PyScalar.str ['E'])] ∧
    fencePlain <:+: fenceJson ∧
    fenceEscapeResponse.contains btick = false := by
  refine ⟨by decide, ⟨[], ['j', 's', 'o', 'n'], rfl⟩, by decide⟩

/-! ## Helper lemmas: the calibration literal parser -/

theorem skipWs_cons_neg (c : Char) (s : List Char) (h : isTokWs c = false) :
    skipWs (c :: s) = c :: s := by
  simp [skipWs, List.dropWhile_cons, h]

theorem skipWs_cons_pos (c : Char) (s : List Char) (h : isTokWs c = true) :
    skipWs (c :: s) = skipWs s := by
  simp [skipWs, List.dropWhile_cons, h]

theorem parseStrBody_plain (v : List Char) (hv : PlainVal v) (rest : List Char) :
    parseStrBody '"' (v ++ '"' :: rest) = some (v, rest) := by
  induction v with
  | nil =>
    rw [List.nil_append, parseStrBody.eq_def]
    simp
  | cons c v' ih =>
    obtain ⟨h1, h2, h3, h4, _⟩ := hv c (List.mem_cons_self c v')
    have ih' := ih (fun c' h' => hv c' (List.mem_cons_of_mem c h'))
    rw [List.cons_append, parseStrBody.eq_def]
    simp [h1, h2, h3, h4, ih']

theorem parseScalar_quoted (v rest : List Char) (hv : PlainVal v) :
    parseScalar ('"' :: v ++ '"' :: rest) = some (PyScalar.str v, rest) := by
  rw [List.cons_append, parseScalar.eq_def]
  simp [parseStrBody_plain v hv rest]

theorem parseEntriesAux_congr_skipWs (f : Nat) (s1 s2 : List Char)
    (acc : List (PyScalar × PyScalar)) (h : skipWs s1 = skipWs s2) :
    parseEntriesAux f s1 acc = parseEntriesAux f s2 acc := by
  cases f with
  | zero => rfl
  | succ f' => simp only [parseEntriesAux, h]

theorem parseEntriesAux_entry_comma (f : Nat) (k v rest : List Char)
    (acc : List (PyScalar × PyScalar)) (hk : PlainVal k) (hv : PlainVal v) :
    parseEntriesAux (f + 1) (entryText k v ++ ',' :: rest) acc =
      parseEntriesAux f rest (dictInsert acc (PyScalar.str k) (PyScalar.str v)) := by
  have h1 : entryText k v ++ ',' :: rest =
      '"' :: (k ++ '"' :: ':' :: ' ' :: '"' :: (v ++ '"' :: ',' :: rest)) := by
    simp [entryText]
  have hscalK : parseScalar ('"' :: (k ++ '"' :: ':' :: ' ' :: '"' :: (v ++ '"' :: ',' :: rest))) =
      some (PyScalar.str k, ':' :: ' ' :: '"' :: (v ++ '"' :: ',' :: rest)) := by
    simpa using parseScalar_quoted k (':' :: ' ' :: '"' :: (v ++ '"' :: ',' :: rest)) hk
  have hscalV : parseScalar ('"' :: (v ++ '"' :: ',' :: rest)) =
      some (PyScalar.str v, ',' :: rest) := by
    simpa using parseScalar_quoted v (',' :: rest) hv
  rw [h1]
  simp only [parseEntriesAux]
  rw [skipWs_cons_neg '"' _ (by decide)]
  simp only [hscalK, skipWs_cons_neg ':' _ (by decide),
    skipWs_cons_pos ' ' _ (by decide), skipWs_cons_neg '"' _ (by decide), hscalV,
    skipWs_cons_neg ',' _ (by decide)]
  rw [if_neg (by decide)]
  simp

theorem parseEntriesAux_entry_close (f : Nat) (k v rest : List Char)
    (acc : List (PyScalar × PyScalar)) (hk : PlainVal k) (hv : PlainVal v) :
    parseEntriesAux (f + 1) (entryText k v ++ rbrace :: rest) acc =
      some (dictInsert acc (PyScalar.str k) (PyScalar.str v), rest) := by
  have h1 : entryText k v ++ rbrace :: rest =
      '"' :: (k ++ '"' :: ':' :: ' ' :: '"' :: (v ++ '"' :: rbrace :: rest)) := by
    simp [entryText]
  have hscalK : parseScalar ('"' :: (k ++ '"' :: ':' :: ' ' :: '"' :: (v ++ '"' :: rbrace :: rest))) =
      some (PyScalar.str k, ':' :: ' ' :: '"' :: (v ++ '"' :: rbrace :: rest)) := by
    simpa using parseScalar_quoted k (':' :: ' ' :: '"' :: (v ++ '"' :: rbrace :: rest)) hk
  have hscalV : parseScalar ('"' :: (v ++ '"' :: rbrace :: rest)) =
      some (PyScalar.str v, rbrace :: rest) := by
    simpa using parseScalar_quoted v (rbrace :: rest) hv
  rw [h1]
  simp only [parseEntriesAux]
  rw [skipWs_cons_neg '"' _ (by decide)]
  simp only [hscalK, skipWs_cons_neg ':' _ (by decide),
    skipWs_cons_pos ' ' _ (by decide), skipWs_cons_neg '"' _ (by decide), hscalV,
    skipWs_cons_neg rbrace _ (by decide)]
  rw [if_neg (by decide)]
  simp [show ¬ rbrace = ',' by decide]

theorem fourFields_insert (a l g th : List Char) :
    dictInsert (dictInsert (dictInsert (dictInsert [] (PyScalar.str audKey) (PyScalar.str a))
        (PyScalar.str levKey) (PyScalar.str l)) (PyScalar.str graKey) (PyScalar.str g))
      (PyScalar.str themesKey) (PyScalar.str th) = fourFields a l g th := by
  have h1 : PyScalar.str audKey ≠ PyScalar.str levKey := by decide
  have h2 : PyScalar.str audKey ≠ PyScalar.str graKey := by decide
  have h3 : PyScalar.str audKey ≠ PyScalar.str themesKey := by decide
  have h4 : PyScalar.str levKey ≠ PyScalar.str graKey := by decide
  have h5 : PyScalar.str levKey ≠ PyScalar.str themesKey := by decide
  have h6 : PyScalar.str graKey ≠ PyScalar.str themesKey := by decide
  simp [dictInsert, fourFields, h1, h2, h3, h4, h5, h6]

theorem parseEntriesAux_mkInner (a l g th rest : List Char) (m : Nat)
    (ha : PlainVal a) (hl : PlainVal l) (hg : PlainVal g) (hth : PlainVal th) :
    parseEntriesAux (m + 4) (mkMappingInner a l g th ++ rest) [] =
      some (fourFields a l g th, rest) := by
  have hka : PlainVal audKey := by unfold PlainVal; decide
  have hkl : PlainVal levKey := by unfold PlainVal; decide
  have hkg : PlainVal graKey := by unfold PlainVal; decide
  have hkt : PlainVal themesKey := by unfold PlainVal; decide
  have hn : mkMappingInner a l g th ++ rest =
      entryText audKey a ++ ',' :: (' ' :: (entryText levKey l ++ ',' ::
        (' ' :: (entryText graKey g ++ ',' ::
          (' ' :: (entryText themesKey th ++ rbrace :: rest)))))) := by
    simp [mkMappingInner]
  rw [hn]
  rw [show m + 4 = (m + 3) + 1 from rfl]
  rw [parseEntriesAux_entry_comma (m + 3) audKey a _ [] hka ha]
  rw [parseEntriesAux_congr_skipWs (m + 3) _
    (entryText levKey l ++ ',' :: (' ' :: (entryText graKey g ++ ',' ::
      (' ' :: (entryText themesKey th ++ rbrace :: rest))))) _
    (skipWs_cons_pos ' ' _ (by decide))]
  rw [show m + 3 = (m + 2) + 1 from rfl]
  rw [parseEntriesAux_entry_comma (m + 2) levKey l _ _ hkl hl]
  rw [parseEntriesAux_congr_skipWs (m + 2) _
    (entryText graKey g ++ ',' :: (' ' :: (entryText themesKey th ++ rbrace :: rest))) _
    (skipWs_cons_pos ' ' _ (by decide))]
  rw [show m + 2 = (m + 1) + 1 from rfl]
  rw [parseEntriesAux_entry_comma (m + 1) graKey g _ _ hkg hg]
  rw [parseEntriesAux_congr_skipWs (m + 1) _
    (entryText themesKey th ++ rbrace :: rest) _
    (skipWs_cons_pos ' ' _ (by decide))]
  rw [parseEntriesAux_entry_close m themesKey th rest _ hkt hth]
  rw [fourFields_insert]

theorem parseTop_mkLit (a l g th rest : List Char)
    (ha : PlainVal a) (hl : PlainVal l) (hg : PlainVal g) (hth : PlainVal th) :
    parseTop (mkMappingLiteral a l g th ++ rest) =
      some (PyValue.dict (fourFields a l g th), rest) := by
  have h0 : mkMappingLiteral a l g th ++ rest =
      lbrace :: (mkMappingInner a l g th ++ rest) := by
    simp [mkMappingLiteral]
  rw [h0, parseTop.eq_def]
  simp only []
  rw [if_pos trivial]
  obtain ⟨m, hm⟩ : ∃ m, (mkMappingInner a l g th ++ rest).length + 1 = m + 4 := by
    refine ⟨(mkMappingInner a l g th ++ rest).length - 3, ?_⟩
    have h3 : 3 ≤ (mkMappingInner a l g th ++ rest).length := by
      simp [mkMappingInner, entryText]
      omega
    omega
  rw [hm, parseEntriesAux_mkInner a l g th rest m ha hl hg hth]
  rfl

theorem pyEval_of_parts (s s1 rest : List Char) (v : PyValue)
    (h : skipLeading s = some s1) (hp : parseTop s1 = some (v, rest))
    (htr : trailingOk rest = true) : pyEval s = some v := by
  unfold pyEval
  rw [h]
  simp [hp, htr]

theorem skipLeading_solid_head (c : Char) (s : List Char)
    (h1 : isLineWs c = false) (h2 : c ≠ '\n') :
    skipLeading (c :: s) = some (c :: s) := by
  unfold skipLeading
  rw [List.dropWhile_cons, if_neg (by simp [h1])]
  simp [h2]

theorem skipLeading_nl_solid (c : Char) (s : List Char)
    (h1 : isLineWs c = false) (h2 : c ≠ '\n') :
    skipLeading ('\n' :: c :: s) = some (c :: s) := by
  unfold skipLeading
  rw [List.dropWhile_cons, if_neg (by simp [isLineWs])]
  simp [skipStrict, h1, h2]

theorem noBt_append {x y : List Char} (hx : ∀ c ∈ x, c ≠ btick)
    (hy : ∀ c ∈ y, c ≠ btick) : ∀ c ∈ x ++ y, c ≠ btick := by
  intro c hc
  rcases List.mem_append.mp hc with h | h
  · exact hx c h
  · exact hy c h

theorem noBt_cons {d : Char} {s : List Char} (hd : d ≠ btick)
    (hs : ∀ c ∈ s, c ≠ btick) : ∀ c ∈ d :: s, c ≠ btick := by
  intro c hc
  rcases List.mem_cons.mp hc with rfl | h
  · exact hd
  · exact hs c h

theorem noBt_entryText {k v : List Char} (hk : ∀ c ∈ k, c ≠ btick)
    (hv : ∀ c ∈ v, c ≠ btick) : ∀ c ∈ entryText k v, c ≠ btick := by
  unfold entryText
  simp only [List.forall_mem_append, List.forall_mem_cons, List.forall_mem_singleton]
  repeat' apply And.intro
  all_goals first | exact hk | exact hv | decide

theorem noBt_mkLit (a l g th : List Char) (ha : PlainVal a) (hl : PlainVal l)
    (hg : PlainVal g) (hth : PlainVal th) :
    ∀ c ∈ mkMappingLiteral a l g th, c ≠ btick := by
  have na : ∀ c ∈ a, c ≠ btick := fun c h => (ha c h).2.2.2.2
  have nl : ∀ c ∈ l, c ≠ btick := fun c h => (hl c h).2.2.2.2
  have ng : ∀ c ∈ g, c ≠ btick := fun c h => (hg c h).2.2.2.2
  have nth : ∀ c ∈ th, c ≠ btick := fun c h => (hth c h).2.2.2.2
  unfold mkMappingLiteral mkMappingInner entryText
  simp only [List.forall_mem_append, List.forall_mem_cons, List.forall_mem_singleton]
  repeat' apply And.intro
  all_goals first | exact na | exact nl | exact ng | exact nth | decide

theorem clean_response_no_btick (s : List Char) (hs : ∀ c ∈ s, c ≠ btick) :
    clean_response s = s := by
  unfold clean_response stripTok
  rw [show fenceJson = btick :: [btick, btick, 'j', 's', 'o', 'n'] from rfl,
      show fencePython = btick :: [btick, btick, 'p', 'y', 't', 'h', 'o', 'n'] from rfl,
      show fencePlain = btick :: [btick, btick] from rfl]
  rw [stripTokAux_all_ne btick [btick, btick, 'j', 's', 'o', 'n'] s.length s hs]
  rw [stripTokAux_all_ne btick [btick, btick, 'p', 'y', 't', 'h', 'o', 'n'] s.length s hs]
  rw [stripTokAux_all_ne btick [btick, btick] s.length s hs]

theorem stripTokAux_head_match (h0 : Char) (ps t : List Char) (fuel : Nat) :
    stripTokAux (h0 :: ps) (fuel + 1) ((h0 :: ps) ++ t) = stripTokAux (h0 :: ps) fuel t := by
  have hpre : (h0 :: ps).isPrefixOf (h0 :: (ps ++ t)) = true := by
    rw [List.isPrefixOf_iff_prefix]
    exact ⟨t, by simp⟩
  rw [List.cons_append]
  simp only [stripTokAux, hpre, and_true, ne_eq, reduceCtorEq, not_false_eq_true, if_true]
  have hd : List.drop ((h0 :: ps).length - 1) (ps ++ t) = t := by
    simp [List.drop_left]
  rw [hd]

theorem clean_wrapJson (s : List Char) (hs : ∀ c ∈ s, c ≠ btick) :
    clean_response (wrapJsonFence s) = '\n' :: s ++ ['\n'] := by
  have hu : ∀ c ∈ ('\n' :: s ++ ['\n']), c ≠ btick :=
    noBt_append (noBt_cons (by decide) hs) (by decide)
  have h1 : stripTok fenceJson (wrapJsonFence s) = '\n' :: s ++ '\n' :: fencePlain := by
    unfold stripTok
    have hW : wrapJsonFence s = fenceJson ++ ('\n' :: s ++ '\n' :: fencePlain) := by
      simp [wrapJsonFence]
    rw [hW]
    have hlen : (fenceJson ++ ('\n' :: s ++ '\n' :: fencePlain)).length =
        ('\n' :: s ++ '\n' :: fencePlain).length + 6 + 1 := by
      simp [fenceJson]
    rw [hlen]
    rw [show fenceJson = btick :: [btick, btick, 'j', 's', 'o', 'n'] from rfl]
    rw [stripTokAux_head_match btick [btick, btick, 'j', 's', 'o', 'n'] _ _]
    apply stripTokAux_no_occur
    have hnone : findAt (btick :: [btick, btick, 'j', 's', 'o', 'n']) fencePlain = none := by
      decide
    have := findAt_none_append btick [btick, btick, 'j', 's', 'o', 'n']
      ('\n' :: s ++ ['\n']) fencePlain hu hnone
    simpa using this
  have h2 : stripTok fencePython ('\n' :: s ++ '\n' :: fencePlain) =
      '\n' :: s ++ '\n' :: fencePlain := by
    unfold stripTok
    rw [show fencePython = btick :: [btick, btick, 'p', 'y', 't', 'h', 'o', 'n'] from rfl]
    apply stripTokAux_no_occur
    have hnone : findAt (btick :: [btick, btick, 'p', 'y', 't', 'h', 'o', 'n']) fencePlain =
        none := by decide
    have := findAt_none_append btick [btick, btick, 'p', 'y', 't', 'h', 'o', 'n']
      ('\n' :: s ++ ['\n']) fencePlain hu hnone
    simpa using this
  have h3 : stripTok fencePlain ('\n' :: s ++ '\n' :: fencePlain) = '\n' :: s ++ ['\n'] := by
    unfold stripTok
    have hsplit : '\n' :: s ++ '\n' :: fencePlain = ('\n' :: s ++ ['\n']) ++ fencePlain := by
      simp
    rw [hsplit]
    have hlen : ((('\n' :: s ++ ['\n']) ++ fencePlain)).length =
        ('\n' :: s ++ ['\n']).length + 3 := by
      simp [fencePlain]
    rw [hlen]
    rw [show fencePlain = btick :: [btick, btick] from rfl]
    rw [stripTokAux_append btick [btick, btick] ('\n' :: s ++ ['\n']) 3 _ hu]
    rw [show stripTokAux (btick :: [btick, btick]) 3 (btick :: [btick, btick]) = [] from by decide]
    simp
  unfold clean_response
  rw [h1, h2, h3]

theorem analyze_mkLit_bare (a l g th : List Char) (ha : PlainVal a) (hl : PlainVal l)
    (hg : PlainVal g) (hth : PlainVal th) :
    analyze_curriculum_llm (mkMappingLiteral a l g th) = PyValue.dict (fourFields a l g th) := by
  unfold analyze_curriculum_llm
  rw [clean_response_no_btick _ (noBt_mkLit a l g th ha hl hg hth)]
  have hskip : skipLeading (mkMappingLiteral a l g th) = some (mkMappingLiteral a l g th) := by
    rw [show mkMappingLiteral a l g th = lbrace :: mkMappingInner a l g th from rfl]
    exact skipLeading_solid_head lbrace _ (by decide) (by decide)
  have hp : parseTop (mkMappingLiteral a l g th) =
      some (PyValue.dict (fourFields a l g th), []) := by
    have := parseTop_mkLit a l g th [] ha hl hg hth
    simpa using this
  rw [pyEval_of_parts _ _ [] _ hskip hp (by decide)]

theorem analyze_mkLit_wrapped (a l g th : List Char) (ha : PlainVal a) (hl : PlainVal l)
    (hg : PlainVal g) (hth : PlainVal th) :
    analyze_curriculum_llm (wrapJsonFence (mkMappingLiteral a l g th)) =
      PyValue.dict (fourFields a l g th) := by
  unfold analyze_curriculum_llm
  rw [clean_wrapJson _ (noBt_mkLit a l g th ha hl hg hth)]
  have hskip : skipLeading ('\n' :: mkMappingLiteral a l g th ++ ['\n']) =
      some (mkMappingLiteral a l g th ++ ['\n']) := by
    rw [show ('\n' :: mkMappingLiteral a l g th ++ ['\n'] : List Char) =
          '\n' :: lbrace :: (mkMappingInner a l g th ++ ['\n']) from by simp [mkMappingLiteral],
        show (mkMappingLiteral a l g th ++ ['\n'] : List Char) =
          lbrace :: (mkMappingInner a l g th ++ ['\n']) from by simp [mkMappingLiteral]]
    exact skipLeading_nl_solid lbrace _ (by decide) (by decide)
  have hp : parseTop (mkMappingLiteral a l g th ++ ['\n']) =
      some (PyValue.dict (fourFields a l g th), ['\n']) :=
    parseTop_mkLit a l g th ['\n'] ha hl hg hth
  rw [pyEval_of_parts _ _ ['\n'] _ hskip hp (by decide)]

/-- C1 (corrected): the calibration parser recovers a fence-token-free
four-key mapping literal exactly, bare or ```` ```json ````-fence-wrapped;
when the cleaned response fails to evaluate it returns the sentinel
mapping and never raises; but a response whose cleaned text evaluates to
any *other* value (a number, a list, a differently-keyed dict) is
returned as that value, not as the sentinel — so the original "every
non-mapping response yields the sentinel" half of the claim is false
(see `calibration_parser_cex`). -/
theorem calibration_parser_amended :
    (∀ a l g th : List Char, PlainVal a → PlainVal l → PlainVal g → PlainVal th →
      analyze_curriculum_llm (mkMappingLiteral a l g th) = PyValue.dict (fourFields a l g th) ∧
      analyze_curriculum_llm (wrapJsonFence (mkMappingLiteral a l g th)) =
        PyValue.dict (fourFields a l g th)) ∧
    (∀ t, pyEval (clean_response t) = none → analyze_curriculum_llm t = SENTINEL) ∧
    (∀ t v, pyEval (clean_response t) = some v → analyze_curriculum_llm t = v) := by
  refine ⟨fun a l g th ha hl hg hth =>
    ⟨analyze_mkLit_bare a l g th ha hl hg hth, analyze_mkLit_wrapped a l g th ha hl hg hth⟩,
    ?_, ?_⟩
  · intro t h
    unfold analyze_curriculum_llm
    rw [h]
  · intro t v h
    unfold analyze_curriculum_llm
    rw [h]

/-- Witness for `calibration_parser_amended` at a concrete fence-wrapped
response. -/
theorem calibration_parser_witness :
    analyze_curriculum_llm (wrapJsonFence (mkMappingLiteral (("Grade 8").toList)
      (("A2").toList) (("retells familiar myths").toList) (("myths, family, food").toList))) =
      PyValue.dict (fourFields (("Grade 8").toList) (("A2").toList)
        (("retells familiar myths").toList) (("myths, family, food").toList)) :=
  (calibration_parser_amended.1 _ _ _ _ (by unfold PlainVal; decide)
    (by unfold PlainVal; decide) (by unfold PlainVal; decide) (by unfold PlainVal; decide)).2

/-- C1 counterexample: the response `5` is not a four-key mapping literal,
yet the parser returns the value `5` — not the sentinel — because `eval`
accepts any expression. -/
theorem calibration_parser_cex :
    analyze_curriculum_llm exFive = PyValue.scalar (PyScalar.int 5) ∧
    PyValue.scalar (PyScalar.int 5) ≠ SENTINEL :=
  ⟨by decide, by decide⟩

/-! ## Helper lemmas: the skeleton line parser -/

theorem pySplitChar_ne_nil (sep : Char) (l : List Char) : pySplitChar sep l ≠ [] := by
  cases l with
  | nil => simp [pySplitChar]
  | cons c rest =>
    simp only [pySplitChar]
    split
    · simp
    · cases h : pySplitChar sep rest <;> simp

theorem takeWhile_of_not_contains (sep : Char) :
    ∀ l : List Char, l.contains sep = false → l.takeWhile (· != sep) = l := by
  intro l
  induction l with
  | nil => simp
  | cons c rest ih =>
    intro h
    simp only [List.contains_cons, Bool.or_eq_false_iff, beq_eq_false_iff_ne] at h
    simp [List.takeWhile_cons, bne_iff_ne, Ne.symm h.1, ih (by simpa using h.2)]

theorem pySplit_of_not_contains (sep : Char) :
    ∀ l : List Char, l.contains sep = false → pySplitChar sep l = [l] := by
  intro l
  induction l with
  | nil => intro _; rfl
  | cons c rest ih =>
    intro h
    simp only [List.contains_cons, Bool.or_eq_false_iff, beq_eq_false_iff_ne] at h
    have hr := ih (by simpa using h.2)
    simp [pySplitChar, if_neg (Ne.symm h.1), hr]

theorem pySplit_of_contains (sep : Char) :
    ∀ l : List Char, l.contains sep = true →
      pySplitChar sep l = l.takeWhile (· != sep) ::
        pySplitChar sep ((l.dropWhile (· != sep)).tail) := by
  intro l
  induction l with
  | nil => intro h; simp at h
  | cons c rest ih =>
    intro h
    by_cases hc : c = sep
    · subst hc
      simp [pySplitChar, List.takeWhile_cons, List.dropWhile_cons]
    · have hrest : rest.contains sep = true := by
        simpa [List.contains_cons, Ne.symm hc] using h
      simp only [pySplitChar, if_neg hc]
      rw [ih hrest]
      simp [List.takeWhile_cons, List.dropWhile_cons, bne_iff_ne, hc]

theorem rowOfLine_contains (i : Nat) (line : List Char) (h : line.contains '|' = true) :
    rowOfLine i line = some ⟨weekLabel (i + 1), pyStrip (line.takeWhile (· != '|')),
      pyStrip (secondPart '|' line), RED⟩ := by
  unfold rowOfLine
  rw [if_pos h]
  rw [pySplit_of_contains '|' line h]
  obtain ⟨q, qs, hq⟩ : ∃ q qs,
      pySplitChar '|' ((line.dropWhile (· != '|')).tail) = q :: qs := by
    cases hh : pySplitChar '|' ((line.dropWhile (· != '|')).tail) with
    | nil => exact absurd hh (pySplitChar_ne_nil _ _)
    | cons q qs => exact ⟨q, qs, rfl⟩
  rw [hq]
  have hqval : q = secondPart '|' line := by
    by_cases hct : ((line.dropWhile (· != '|')).tail).contains '|' = true
    · rw [pySplit_of_contains '|' _ hct] at hq
      injection hq with h1 h2
      unfold secondPart
      exact h1.symm
    · rw [pySplit_of_not_contains '|' _ (by simpa using hct)] at hq
      injection hq with h1 h2
      unfold secondPart
      rw [takeWhile_of_not_contains '|' _ (by simpa using hct)]
      exact h1.symm
  rw [hqval]

theorem filterMap_eq_filter_map {α β : Type} (f : α → Option β) (p : α → Bool) (g : α → β)
    (h : ∀ x, f x = if p x then some (g x) else none) :
    ∀ L : List α, L.filterMap f = (L.filter p).map g := by
  intro L
  induction L with
  | nil => simp
  | cons x xs ih =>
    by_cases hx : p x = true
    · simp [List.filterMap_cons, List.filter_cons, h x, hx, ih]
    · simp [List.filterMap_cons, List.filter_cons, h x, hx, ih]

theorem enumFrom_filter_snd_length {α : Type} (p : α → Bool) :
    ∀ (l : List α) (n : Nat),
      ((List.enumFrom n l).filter (fun q => p q.2)).length = (l.filter p).length := by
  intro l
  induction l with
  | nil => intro n; simp
  | cons x xs ih =>
    intro n
    simp only [List.enumFrom, List.filter_cons]
    by_cases hx : p x = true
    · simp [hx, ih]
    · simp [hx, ih]

/-- C4 (confirmed): for every raw skeleton response, the parser keeps
exactly the lines containing the separator `|`, in line order, one row per
such line; the row's topic is the stripped text before the first
separator, its grammar the stripped text between the first and second
separator (the whole remainder when there is a single one), and its week
index the 1-based line position; lines without a separator are dropped and no
padding is added, so `N` separator lines give exactly `N` rows. -/
theorem skeleton_parser_per_line (raw : List Char) :
    parseSkeletonRows (generate_skeleton_lines raw) =
      ((generate_skeleton_lines raw).enum.filter (fun q => q.2.contains '|')).map
        (fun q => ⟨weekLabel (q.1 + 1), pyStrip (q.2.takeWhile (· != '|')),
          pyStrip (secondPart '|' q.2), RED⟩) ∧
    (parseSkeletonRows (generate_skeleton_lines raw)).length =
      ((generate_skeleton_lines raw).filter (fun line => line.contains '|')).length := by
  have hmain : ∀ lines : List (List Char), parseSkeletonRows lines =
      (lines.enum.filter (fun q => q.2.contains '|')).map
        (fun q => ⟨weekLabel (q.1 + 1), pyStrip (q.2.takeWhile (· != '|')),
          pyStrip (secondPart '|' q.2), RED⟩) := by
    intro lines
    unfold parseSkeletonRows
    apply filterMap_eq_filter_map
    intro x
    by_cases hx : x.2.contains '|' = true
    · rw [rowOfLine_contains x.1 x.2 hx]
      have hmem : '|' ∈ x.2 := by simpa using hx
      simp [hmem]
    · unfold rowOfLine
      have hmem : ¬ '|' ∈ x.2 := by simpa using hx
      simp [hx, hmem]
  refine ⟨hmain _, ?_⟩
  rw [hmain, List.length_map]
  exact enumFrom_filter_snd_length _ _ 0

/-- Witness for `skeleton_parser_per_line`: ten-of-thirty-four-style
boundary input with two separator lines out of three gives exactly two
rows, with week labels taken from line positions. -/
theorem skeleton_parser_witness :
    parseSkeletonRows (generate_skeleton_lines exSkeletonRaw) =
      [⟨("Week 1").toList, ("Myths: Zeus").toList, ("Noun Gender").toList, RED⟩,
       ⟨("Week 3").toList, ("Athens").toList, ("Adjectives").toList, RED⟩] ∧
    (parseSkeletonRows (generate_skeleton_lines exSkeletonRaw)).length = 2 := by
  have h := skeleton_parser_per_line exSkeletonRaw
  exact ⟨h.1.trans (by decide), h.2.trans (by decide)⟩

/-! ## Helper lemmas: lesson section extraction -/

theorem findAt_front (pat t : List Char) (hp : pat ≠ []) :
    findAt pat (pat ++ t) = some 0 := by
  cases pat with
  | nil => exact absurd rfl hp
  | cons p ps =>
    have hpre : (p :: ps).isPrefixOf (p :: (ps ++ t)) = true := by
      rw [List.isPrefixOf_iff_prefix]
      exact ⟨t, by simp⟩
    rw [List.cons_append]
    simp [findAt, hpre]

theorem findAt_shift (h0 : Char) (ps : List Char) :
    ∀ (u v : List Char), (∀ c ∈ u, c ≠ h0) →
      findAt (h0 :: ps) (u ++ v) = (findAt (h0 :: ps) v).map (· + u.length) := by
  intro u
  induction u with
  | nil =>
    intro v _
    cases h : findAt (h0 :: ps) v <;> simp [h]
  | cons c u' ih =>
    intro v hu
    have hc : c ≠ h0 := hu c (List.mem_cons_self c u')
    rw [List.cons_append]
    simp only [findAt, isPrefixOf_cons_ne h0 c ps _ hc, Bool.false_eq_true, if_false]
    rw [ih v (fun c' h' => hu c' (List.mem_cons_of_mem c h'))]
    cases h : findAt (h0 :: ps) v with
    | none => simp
    | some j =>
      simp only [Option.map_some', List.length_cons]
      congr 1

theorem findAt_none_cons' (pat : List Char) (c : Char) (rest : List Char)
    (hpre : pat.isPrefixOf (c :: rest) = false)
    (hr : findAt pat rest = none) : findAt pat (c :: rest) = none := by
  simp [findAt, hpre, hr]

theorem isPrefixOf_cons2_ne (a b c : Char) (ps rest : List Char) (hbc : b ≠ c) :
    (a :: b :: ps).isPrefixOf (a :: c :: rest) = false := by
  have hb : (b == c) = false := beq_eq_false_iff_ne.mpr hbc
  simp [List.isPrefixOf, hb]

theorem searchLazy_exact (h0 : Char) (os cs content : List Char)
    (hcontent : ∀ c ∈ content, c ≠ h0) :
    searchLazy (h0 :: os) (h0 :: cs) ((h0 :: os) ++ content ++ (h0 :: cs)) = some content := by
  unfold searchLazy
  rw [List.append_assoc]
  rw [findAt_front (h0 :: os) (content ++ (h0 :: cs)) (by simp)]
  simp only [Nat.zero_add, List.drop_left]
  rw [findAt_shift h0 cs content (h0 :: cs) hcontent]
  rw [show findAt (h0 :: cs) (h0 :: cs) = some 0 from by
        have := findAt_front (h0 :: cs) [] (by simp)
        simpa using this]
  simp [List.take_left]

theorem findAt_stOpen_teacherWrap (content : List Char)
    (hcontent : ∀ c ∈ content, c ≠ '<') :
    findAt STUDENT_TEXT_OPEN (TEACHER_OPEN ++ content ++ TEACHER_CLOSE) = none := by
  have hpat : STUDENT_TEXT_OPEN = '<' :: 'S' :: ("TUDENT_TEXT>").toList := by decide
  have hclose : findAt ('<' :: 'S' :: ("TUDENT_TEXT>").toList) TEACHER_CLOSE = none := by
    decide
  have hmid : findAt ('<' :: 'S' :: ("TUDENT_TEXT>").toList) (content ++ TEACHER_CLOSE) =
      none :=
    findAt_none_append '<' _ content TEACHER_CLOSE hcontent hclose
  rw [List.append_assoc, hpat,
      show TEACHER_OPEN = '<' :: 'T' :: 'E' :: 'A' :: 'C' :: 'H' :: 'E' :: 'R' :: '>' :: []
        from by decide]
  simp only [List.cons_append, List.nil_append]
  refine findAt_none_cons' _ _ _ (isPrefixOf_cons2_ne '<' 'S' 'T' _ _ (by decide)) ?_
  refine findAt_none_cons' _ _ _ (isPrefixOf_cons_ne '<' 'T' _ _ (by decide)) ?_
  refine findAt_none_cons' _ _ _ (isPrefixOf_cons_ne '<' 'E' _ _ (by decide)) ?_
  refine findAt_none_cons' _ _ _ (isPrefixOf_cons_ne '<' 'A' _ _ (by decide)) ?_
  refine findAt_none_cons' _ _ _ (isPrefixOf_cons_ne '<' 'C' _ _ (by decide)) ?_
  refine findAt_none_cons' _ _ _ (isPrefixOf_cons_ne '<' 'H' _ _ (by decide)) ?_
  refine findAt_none_cons' _ _ _ (isPrefixOf_cons_ne '<' 'E' _ _ (by decide)) ?_
  refine findAt_none_cons' _ _ _ (isPrefixOf_cons_ne '<' 'R' _ _ (by decide)) ?_
  refine findAt_none_cons' _ _ _ (isPrefixOf_cons_ne '<' '>' _ _ (by decide)) ?_
  exact hmid

theorem findAt_exOpen_teacherWrap (content : List Char)
    (hcontent : ∀ c ∈ content, c ≠ '<') :
    findAt EXERCISES_OPEN (TEACHER_OPEN ++ content ++ TEACHER_CLOSE) = none := by
  have hpat : EXERCISES_OPEN = '<' :: 'S' :: ("TUDENT_EXERCISES>").toList := by decide
  have hclose : findAt ('<' :: 'S' :: ("TUDENT_EXERCISES>").toList) TEACHER_CLOSE = none := by
    decide
  have hmid : findAt ('<' :: 'S' :: ("TUDENT_EXERCISES>").toList) (content ++ TEACHER_CLOSE) =
      none :=
    findAt_none_append '<' _ content TEACHER_CLOSE hcontent hclose
  rw [List.append_assoc, hpat,
      show TEACHER_OPEN = '<' :: 'T' :: 'E' :: 'A' :: 'C' :: 'H' :: 'E' :: 'R' :: '>' :: []
        from by decide]
  simp only [List.cons_append, List.nil_append]
  refine findAt_none_cons' _ _ _ (isPrefixOf_cons2_ne '<' 'S' 'T' _ _ (by decide)) ?_
  refine findAt_none_cons' _ _ _ (isPrefixOf_cons_ne '<' 'T' _ _ (by decide)) ?_
  refine findAt_none_cons' _ _ _ (isPrefixOf_cons_ne '<' 'E' _ _ (by decide)) ?_
  refine findAt_none_cons' _ _ _ (isPrefixOf_cons_ne '<' 'A' _ _ (by decide)) ?_
  refine findAt_none_cons' _ _ _ (isPrefixOf_cons_ne '<' 'C' _ _ (by decide)) ?_
  refine findAt_none_cons' _ _ _ (isPrefixOf_cons_ne '<' 'H' _ _ (by decide)) ?_
  refine findAt_none_cons' _ _ _ (isPrefixOf_cons_ne '<' 'E' _ _ (by decide)) ?_
  refine findAt_none_cons' _ _ _ (isPrefixOf_cons_ne '<' 'R' _ _ (by decide)) ?_
  refine findAt_none_cons' _ _ _ (isPrefixOf_cons_ne '<' '>' _ _ (by decide)) ?_
  exact hmid

theorem parse_lesson_teacher_only (content : List Char)
    (hcontent : ∀ c ∈ content, c ≠ '<') :
    parse_lesson_sections (TEACHER_OPEN ++ content ++ TEACHER_CLOSE) =
      (pyStrip content, ERR_STUDENT, ERR_EXERCISES) := by
  unfold parse_lesson_sections extractSection
  have ht : searchLazy TEACHER_OPEN TEACHER_CLOSE
      (TEACHER_OPEN ++ content ++ TEACHER_CLOSE) = some content := by
    rw [show TEACHER_OPEN = '<' :: ("TEACHER>").toList from by decide,
        show TEACHER_CLOSE = '<' :: ("/TEACHER>").toList from by decide]
    exact searchLazy_exact '<' _ _ content hcontent
  have hs : searchLazy STUDENT_TEXT_OPEN STUDENT_TEXT_CLOSE
      (TEACHER_OPEN ++ content ++ TEACHER_CLOSE) = none := by
    unfold searchLazy
    rw [findAt_stOpen_teacherWrap content hcontent]
  have he : searchLazy EXERCISES_OPEN EXERCISES_CLOSE
      (TEACHER_OPEN ++ content ++ TEACHER_CLOSE) = none := by
    unfold searchLazy
    rw [findAt_exOpen_teacherWrap content hcontent]
  rw [ht, hs, he]

/-- C5 (confirmed): the three lesson sections are extracted independently
by lazy tag-delimited matching; when only the teacher section is present
(with tag-free content), the teacher field is the stripped content and the
other two fields are exactly their error markers; in particular
`<TEACHER>A</TEACHER>` parses to `("A", error marker, error marker)`. -/
theorem lesson_sections_independent :
    (∀ content : List Char, (∀ c ∈ content, c ≠ '<') →
      parse_lesson_sections (TEACHER_OPEN ++ content ++ TEACHER_CLOSE) =
        (pyStrip content, ERR_STUDENT, ERR_EXERCISES)) ∧
    parse_lesson_sections (("<TEACHER>A</TEACHER>").toList) =
      (['A'], ERR_STUDENT, ERR_EXERCISES) :=
  ⟨parse_lesson_teacher_only, by decide⟩

/-- Witness for `lesson_sections_independent` at a concrete content. -/
theorem lesson_sections_witness :
    parse_lesson_sections (TEACHER_OPEN ++ ['B'] ++ TEACHER_CLOSE) =
      (pyStrip ['B'], ERR_STUDENT, ERR_EXERCISES) :=
  lesson_sections_independent.1 ['B'] (by decide)

/-! ## State machine and prompt claims -/

/-- C2 (corrected): locking is one-way in the sense that the session never
returns to the unlocked/absent state, and a lock submission without
analysis data is rejected; but while the calibration form is available
(analysis data present), a second lock submission silently *overwrites*
the locked fields with the newly submitted values (see
`lock_overwrite_cex`) — the code has no already-locked guard. -/
theorem lock_transition_amended :
    (∀ (s : AppState) (e : Event), s.locked_config.isSome = true →
      ((step s e).locked_config).isSome = true) ∧
    (∀ (s : AppState) (cfg : Config), pyTruthy s.analyzed_curriculum = true →
      (step s (Event.lockSubmit cfg)).locked_config = some cfg) ∧
    (∀ (s : AppState) (cfg : Config), pyTruthy s.analyzed_curriculum = false →
      step s (Event.lockSubmit cfg) = s) := by
  refine ⟨?_, ?_, ?_⟩
  · intro s e h
    cases e with
    | analyzeDoc ext resp =>
      by_cases hg : s.api_key = true ∧ pyTruthy s.analyzed_curriculum = false
      · cases ext with
        | none => simpa [step, stepE, hg] using h
        | some t =>
          cases resp with
          | error err => simpa [step, stepE, hg] using h
          | ok rtext => simpa [step, stepE, hg] using h
      · simpa [step, stepE, hg] using h
    | lockSubmit cfg =>
      by_cases hg : pyTruthy s.analyzed_curriculum = true
      · simp [step, stepE, hg]
      · simpa [step, stepE, hg] using h
    | genSkeleton resp =>
      by_cases hg : s.locked_config.isSome = true ∧ s.syllabus_df = none
      · by_cases hk : s.api_key = true
        · cases resp with
          | error err => simp [step, stepE, hg, hk]
          | ok raw => simp [step, stepE, hg, hk]
        · simp [step, stepE, hg, hk]
      · simpa [step, stepE, hg] using h
    | editSyllabus rows =>
      by_cases hg : s.syllabus_df.isSome = true
      · simpa [step, stepE, hg] using h
      · simpa [step, stepE, hg] using h
    | resetSyllabus =>
      by_cases hg : s.syllabus_df.isSome = true
      · simpa [step, stepE, hg] using h
      · simpa [step, stepE, hg] using h
    | genLesson week tp gr nt ac fs resp =>
      cases hdf : s.syllabus_df with
      | none => simpa [step, stepE, hdf] using h
      | some rows =>
        by_cases hg : rows ≠ [] ∧ week ∈ weekOptions rows ∧ s.api_key = true
        · cases resp with
          | error err => simpa [step, stepE, hdf, hg] using h
          | ok out => simpa [step, stepE, hdf, hg] using h
        · simpa [step, stepE, hdf, hg] using h
  · intro s cfg h
    simp [step, stepE, h]
  · intro s cfg h
    simp [step, stepE, h]

/-- Witness for `lock_transition_amended`: a first lock in a draft
session stores the submitted fields. -/
theorem lock_transition_witness :
    (step sDraft (Event.lockSubmit cfgA)).locked_config = some cfgA :=
  lock_transition_amended.2.1 sDraft cfgA (by decide)

/-- C2 counterexample: in a session already locked with `cfgA`, submitting
the calibration form again silently replaces the locked profile with
`cfgB`. -/
theorem lock_overwrite_cex :
    sLocked.locked_config = some cfgA ∧
    (step sLocked (Event.lockSubmit cfgB)).locked_config = some cfgB ∧
    cfgB ≠ cfgA :=
  ⟨by decide, by decide, by decide⟩

/-- C3 (confirmed): with a locked profile, no skeleton yet and an API key,
the skeleton-generation transition always installs a table — when the
parser produces zero rows it installs exactly the 34 generic placeholder
rows, otherwise the parsed rows. -/
theorem skeleton_transition_total (s : AppState) (raw : List Char)
    (hgate : skeletonGenEnabled s = true) (hkey : s.api_key = true) :
    (step s (Event.genSkeleton (Except.ok raw))).syllabus_df = some (skeletonTable raw) ∧
    skeletonTable raw ≠ [] ∧
    (parseSkeletonRows (generate_skeleton_lines raw) = [] →
      skeletonTable raw = placeholderRows ∧ placeholderRows.length = 34) ∧
    (parseSkeletonRows (generate_skeleton_lines raw) ≠ [] →
      skeletonTable raw = parseSkeletonRows (generate_skeleton_lines raw)) := by
  simp only [skeletonGenEnabled, Bool.and_eq_true] at hgate
  have hl : s.locked_config.isSome = true := hgate.1
  have hn : s.syllabus_df = none := Option.isNone_iff_eq_none.mp hgate.2
  have hzeta : skeletonTable raw =
      if parseSkeletonRows (generate_skeleton_lines raw) = [] then placeholderRows
      else parseSkeletonRows (generate_skeleton_lines raw) := rfl
  refine ⟨?_, ?_, ?_, ?_⟩
  · simp [step, stepE, hl, hn, hkey]
  · rw [hzeta]
    by_cases hz : parseSkeletonRows (generate_skeleton_lines raw) = []
    · rw [if_pos hz]
      decide
    · rw [if_neg hz]
      exact hz
  · intro hz
    rw [hzeta, if_pos hz]
    exact ⟨rfl, by decide⟩
  · intro hnz
    rw [hzeta, if_neg hnz]

/-- Witness for `skeleton_transition_total`: an empty response installs
the 34 placeholder rows. -/
theorem skeleton_transition_witness :
    (step sLocked (Event.genSkeleton (Except.ok []))).syllabus_df = some (skeletonTable []) ∧
    skeletonTable [] = placeholderRows := by
  have h := skeleton_transition_total sLocked [] (by decide) (by decide)
  exact ⟨h.1, (h.2.2.1 (by decide)).1⟩

/-- C6 (confirmed): when the model call fails, the session state is left
completely unchanged (the exception propagates before any assignment), and
whenever the handler actually reached the model call the failure is
surfaced as that `ModelError`; the step function is total, so the failure
never terminates the session. -/
theorem model_error_no_mutation (s : AppState) (e : Event) (err : ModelError)
    (hresp : eventResp e = some (Except.error err)) :
    step s e = s ∧ (modelCallReached s e = true → stepE s e = Except.error err) := by
  cases e with
  | analyzeDoc ext resp =>
    simp only [eventResp, Option.some.injEq] at hresp
    subst hresp
    refine ⟨?_, ?_⟩
    · by_cases hg : s.api_key = true ∧ pyTruthy s.analyzed_curriculum = false
      · cases ext with
        | none => simp [step, stepE, hg]
        | some t => simp [step, stepE, hg]
      · simp [step, stepE, hg]
    · intro hreach
      simp only [modelCallReached, Bool.and_eq_true, Option.isSome_iff_exists] at hreach
      obtain ⟨⟨hkey, htr⟩, t, rfl⟩ := hreach
      have htr' : pyTruthy s.analyzed_curriculum = false := by simpa using htr
      simp [stepE, hkey, htr']
  | genSkeleton resp =>
    simp only [eventResp, Option.some.injEq] at hresp
    subst hresp
    refine ⟨?_, ?_⟩
    · by_cases hg : s.locked_config.isSome = true ∧ s.syllabus_df = none
      · by_cases hk : s.api_key = true
        · simp [step, stepE, hg, hk]
        · simp [step, stepE, hg, hk]
      · simp [step, stepE, hg]
    · intro hreach
      simp only [modelCallReached, Bool.and_eq_true] at hreach
      obtain ⟨⟨hsome, hnone⟩, hkey⟩ := hreach
      have hn : s.syllabus_df = none := Option.isNone_iff_eq_none.mp hnone
      simp [stepE, hsome, hn, hkey]
  | genLesson week tp gr nt ac fs resp =>
    simp only [eventResp, Option.some.injEq] at hresp
    subst hresp
    refine ⟨?_, ?_⟩
    · cases hdf : s.syllabus_df with
      | none => simp [step, stepE, hdf]
      | some rows =>
        by_cases hg : rows ≠ [] ∧ week ∈ weekOptions rows ∧ s.api_key = true
        · simp [step, stepE, hdf, hg]
        · simp [step, stepE, hdf, hg]
    · intro hreach
      cases hdf : s.syllabus_df with
      | none => rw [modelCallReached, hdf] at hreach; simp at hreach
      | some rows =>
        rw [modelCallReached, hdf] at hreach
        simp only [Bool.and_eq_true] at hreach
        obtain ⟨⟨hne, hmem⟩, hkey⟩ := hreach
        have hne' : rows ≠ [] := by simpa using hne
        have hmem' : week ∈ weekOptions rows := by simpa using hmem
        simp [stepE, hdf, hne', hmem', hkey]
  | lockSubmit cfg => simp [eventResp] at hresp
  | editSyllabus rows => simp [eventResp] at hresp
  | resetSyllabus => simp [eventResp] at hresp

/-- Witness for `model_error_no_mutation`: a failing skeleton generation
leaves the locked session untouched and surfaces the failure. -/
theorem model_error_witness :
    step sLocked (Event.genSkeleton (Except.error errEx)) = sLocked ∧
    stepE sLocked (Event.genSkeleton (Except.error errEx)) = Except.error errEx := by
  have h := model_error_no_mutation sLocked (Event.genSkeleton (Except.error errEx)) errEx rfl
  exact ⟨h.1, h.2 (by decide)⟩

/-- C7 (confirmed): resetting the skeleton clears the whole entry
collection and re-opens the pre-skeleton feature gate, while leaving the
locked profile and — per current behaviour — all generated lesson
material in place (no cascade-clear). -/
theorem reset_clears_only_syllabus (s : AppState) (h : s.syllabus_df.isSome = true) :
    (step s Event.resetSyllabus).syllabus_df = none ∧
    (step s Event.resetSyllabus).locked_config = s.locked_config ∧
    (step s Event.resetSyllabus).generated_lessons = s.generated_lessons ∧
    skeletonGenEnabled (step s Event.resetSyllabus) = s.locked_config.isSome := by
  simp [step, stepE, h, skeletonGenEnabled]

/-- Witness for `reset_clears_only_syllabus` at a session with a
one-row skeleton. -/
theorem reset_witness :
    (step sSkeleton Event.resetSyllabus).syllabus_df = none ∧
    (step sSkeleton Event.resetSyllabus).generated_lessons = sSkeleton.generated_lessons := by
  have h := reset_clears_only_syllabus sSkeleton (by decide)
  exact ⟨h.1, h.2.2.1⟩

theorem assocSet_lookup_self (m : List (List Char × List Char)) (k v : List Char) :
    List.lookup k (assocSet m k v) = some v := by
  induction m with
  | nil => simp [assocSet, List.lookup]
  | cons p rest ih =>
    obtain ⟨k', v'⟩ := p
    by_cases h : k' = k
    · subst h
      simp [assocSet, List.lookup]
    · have hbeq : (k == k') = false := beq_eq_false_iff_ne.mpr (Ne.symm h)
      simp [assocSet, if_neg h, List.lookup, hbeq, ih]

theorem assocSet_lookup_mono (m : List (List Char × List Char)) (k v w : List Char)
    (h : (List.lookup w (assocSet m k v)).isSome = true) :
    w = k ∨ (List.lookup w m).isSome = true := by
  induction m with
  | nil =>
    by_cases hw : w = k
    · exact Or.inl hw
    · have hbeq : (w == k) = false := beq_eq_false_iff_ne.mpr hw
      simp [assocSet, List.lookup, hbeq] at h
  | cons p rest ih =>
    obtain ⟨k', v'⟩ := p
    by_cases hk : k' = k
    · subst hk
      by_cases hw : w = k'
      · exact Or.inl hw
      · have hbeq : (w == k') = false := beq_eq_false_iff_ne.mpr hw
        simp only [assocSet, if_pos rfl, List.lookup, hbeq] at h
        right
        simp [List.lookup, hbeq, h]
    · by_cases hw : w = k'
      · subst hw
        right
        simp [List.lookup]
      · have hbeq : (w == k') = false := beq_eq_false_iff_ne.mpr hw
        simp only [assocSet, if_neg hk, List.lookup, hbeq] at h
        rcases ih h with h1 | h1
        · exact Or.inl h1
        · right
          simp [List.lookup, hbeq, h1]

theorem markComplete_firstStatus (rows : List Row) (w : List Char)
    (h : w ∈ rows.map Row.week) : firstStatus (markComplete rows w) w = some GREEN := by
  induction rows with
  | nil => simp at h
  | cons r rest ih =>
    by_cases hr : r.week = w
    · simp [markComplete, hr, firstStatus, List.find?]
    · have hmem : w ∈ rest.map Row.week := by
        simp only [List.map_cons, List.mem_cons] at h
        rcases h with h | h
        · exact absurd h.symm hr
        · exact h
      have hbeq : (r.week == w) = false := beq_eq_false_iff_ne.mpr hr
      have := ih hmem
      unfold firstStatus at this ⊢
      simp [markComplete, hr, List.find?, hbeq, this]

theorem step_lessons_unchanged_of_not_gen (s : AppState) (e : Event)
    (he : eventResp e = none ∨ (∃ resp, e = Event.genSkeleton resp) ∨
      (∃ ext resp, e = Event.analyzeDoc ext resp)) :
    (step s e).generated_lessons = s.generated_lessons := by
  cases e with
  | analyzeDoc ext resp =>
    by_cases hg : s.api_key = true ∧ pyTruthy s.analyzed_curriculum = false
    · cases ext with
      | none => simp [step, stepE, hg]
      | some t =>
        cases resp with
        | error err => simp [step, stepE, hg]
        | ok rtext => simp [step, stepE, hg]
    · simp [step, stepE, hg]
  | lockSubmit cfg =>
    by_cases hg : pyTruthy s.analyzed_curriculum = true
    · simp [step, stepE, hg]
    · simp [step, stepE, hg]
  | genSkeleton resp =>
    by_cases hg : s.locked_config.isSome = true ∧ s.syllabus_df = none
    · by_cases hk : s.api_key = true
      · cases resp with
        | error err => simp [step, stepE, hg, hk]
        | ok raw => simp [step, stepE, hg, hk]
      · simp [step, stepE, hg, hk]
    · simp [step, stepE, hg]
  | editSyllabus rows =>
    by_cases hg : s.syllabus_df.isSome = true
    · simp [step, stepE, hg]
    · simp [step, stepE, hg]
  | resetSyllabus =>
    by_cases hg : s.syllabus_df.isSome = true
    · simp [step, stepE, hg]
    · simp [step, stepE, hg]
  | genLesson week tp gr nt ac fs resp =>
    rcases he with he | ⟨resp', he⟩ | ⟨ext, resp', he⟩ <;> simp [eventResp] at he

/-- C9 (confirmed): lesson material is only ever created for a week
identifier that is among the week options of the current syllabus at
creation time, and a successful generation stores the output under that
week and flips the first matching row's status to the complete marker. -/
theorem lesson_material_scoped :
    (∀ (s : AppState) (e : Event) (w : List Char),
      (List.lookup w (step s e).generated_lessons).isSome = true →
      (List.lookup w s.generated_lessons).isSome = true ∨
      (∃ rows, s.syllabus_df = some rows ∧ w ∈ weekOptions rows)) ∧
    (∀ (s : AppState) (rows : List Row) (w tp gr nt : List Char) (ac : Bool)
      (fs : List (List Char × List Char)) (out : List Char),
      s.syllabus_df = some rows → w ∈ weekOptions rows → s.api_key = true →
      List.lookup w
        (step s (Event.genLesson w tp gr nt ac fs (Except.ok out))).generated_lessons =
        some out ∧
      (step s (Event.genLesson w tp gr nt ac fs (Except.ok out))).syllabus_df =
        some (markComplete rows w) ∧
      firstStatus (markComplete rows w) w = some GREEN) := by
  constructor
  · intro s e w h
    cases e with
    | genLesson week tp gr nt ac fs resp =>
      cases hdf : s.syllabus_df with
      | none => left; simpa [step, stepE, hdf] using h
      | some rows =>
        by_cases hg : rows ≠ [] ∧ week ∈ weekOptions rows ∧ s.api_key = true
        · cases resp with
          | error err => left; simpa [step, stepE, hdf, hg] using h
          | ok out =>
            have hstep : (step s (Event.genLesson week tp gr nt ac fs
                (Except.ok out))).generated_lessons =
                assocSet s.generated_lessons week out := by
              simp [step, stepE, hdf, hg]
            rw [hstep] at h
            rcases assocSet_lookup_mono _ _ _ _ h with rfl | h1
            · right
              exact ⟨rows, rfl, hg.2.1⟩
            · left
              exact h1
        · left; simpa [step, stepE, hdf, hg] using h
    | analyzeDoc ext resp =>
      left
      rwa [step_lessons_unchanged_of_not_gen s _ (Or.inr (Or.inr ⟨ext, resp, rfl⟩))] at h
    | lockSubmit cfg =>
      left
      rwa [step_lessons_unchanged_of_not_gen s (Event.lockSubmit cfg) (Or.inl rfl)] at h
    | genSkeleton resp =>
      left
      rwa [step_lessons_unchanged_of_not_gen s _ (Or.inr (Or.inl ⟨resp, rfl⟩))] at h
    | editSyllabus rows =>
      left
      rwa [step_lessons_unchanged_of_not_gen s (Event.editSyllabus rows) (Or.inl rfl)] at h
    | resetSyllabus =>
      left
      rwa [step_lessons_unchanged_of_not_gen s Event.resetSyllabus (Or.inl rfl)] at h
  · intro s rows w tp gr nt ac fs out hdf hw hkey
    have hne : rows ≠ [] := by
      intro hc
      rw [hc] at hw
      simp [weekOptions] at hw
    have hg : rows ≠ [] ∧ w ∈ weekOptions rows ∧ s.api_key = true := ⟨hne, hw, hkey⟩
    refine ⟨?_, ?_, markComplete_firstStatus rows w hw⟩
    · have hstep : (step s (Event.genLesson w tp gr nt ac fs
          (Except.ok out))).generated_lessons = assocSet s.generated_lessons w out := by
        simp [step, stepE, hdf, hg]
      rw [hstep]
      exact assocSet_lookup_self _ _ _
    · simp [step, stepE, hdf, hg]

/-- Witness for `lesson_material_scoped`: generating material for
`Week 1` in the one-row session stores it and marks the row complete. -/
theorem lesson_material_witness :
    List.lookup (("Week 1").toList)
      (step sSkeleton (Event.genLesson (("Week 1").toList) [] [] [] false []
        (Except.ok (['x'])))).generated_lessons = some ['x'] ∧
    firstStatus (markComplete [rowW1] (("Week 1").toList)) (("Week 1").toList) =
      some GREEN := by
  have h := lesson_material_scoped.2 sSkeleton [rowW1] (("Week 1").toList) [] [] [] false []
    ['x'] (by decide) (by decide) (by decide)
  exact ⟨h.1, h.2.2⟩

theorem source_text_eq_nil_iff (files : List (List Char × List Char)) :
    source_text files = [] ↔ files = [] := by
  cases files with
  | nil => simp [source_text]
  | cons p rest =>
    simp [source_text, source_block]

/-- C8 (corrected): the prompt's instruction slot holds the strict-source
instruction exactly when at least one source file is attached — even when
every attached file's extracted text is empty, because the per-file
wrapper makes `source_text` nonempty (see `lesson_prompt_cex`); with no
file attached it holds the creative instruction; and the source text
embedded in the prompt is always the 20000-character truncation. -/
theorem lesson_prompt_amended :
    (∀ files : List (List Char × List Char),
      (instruction_mode files = STRICT_INSTR ↔ files ≠ []) ∧
      (instruction_mode files = CREATIVE_INSTR ↔ files = [])) ∧
    (∀ (cfg : Config) (wk tp gr nt : List Char) (ac : Bool)
      (files : List (List Char × List Char)),
      instruction_mode files <:+: full_prompt cfg wk tp gr nt ac files ∧
      (source_text files).take 20000 <:+: full_prompt cfg wk tp gr nt ac files ∧
      ((source_text files).take 20000).length ≤ 20000) := by
  have hdisj : STRICT_INSTR ≠ CREATIVE_INSTR := by decide
  refine ⟨?_, ?_⟩
  · intro files
    unfold instruction_mode
    by_cases h : source_text files = []
    · rw [if_pos h]
      have hf : files = [] := (source_text_eq_nil_iff files).mp h
      refine ⟨⟨fun hc => absurd hc.symm hdisj, fun hne => absurd hf hne⟩, ?_⟩
      simp [hf]
    · rw [if_neg h]
      have hf : files ≠ [] := fun hc => h ((source_text_eq_nil_iff files).mpr hc)
      refine ⟨⟨fun _ => hf, fun _ => rfl⟩, ?_⟩
      exact ⟨fun hc => absurd hc hdisj, fun hc => absurd hc hf⟩
  · intro cfg wk tp gr nt ac files
    refine ⟨?_, ?_, ?_⟩
    · refine ⟨LP1 ++ reprConfig cfg ++ LP2 ++ wk ++ LP3 ++ tp ++ LP4 ++ gr ++ LP5 ++ nt ++
        LP6 ++ access_mode ac ++ LP7,
        LP8 ++ (source_text files).take 20000 ++ LP9, ?_⟩
      simp [full_prompt]
    · refine ⟨LP1 ++ reprConfig cfg ++ LP2 ++ wk ++ LP3 ++ tp ++ LP4 ++ gr ++ LP5 ++ nt ++
        LP6 ++ access_mode ac ++ LP7 ++ instruction_mode files ++ LP8, LP9, ?_⟩
      simp [full_prompt]
    · have := List.length_take 20000 (source_text files)
      omega

/-- Witness for `lesson_prompt_amended`: with one attached (empty-text)
file the strict instruction is chosen and embedded in the prompt. -/
theorem lesson_prompt_witness :
    instruction_mode exEmptyFile = STRICT_INSTR ∧
    instruction_mode exEmptyFile <:+: full_prompt cfg0 [] [] [] [] false exEmptyFile := by
  exact ⟨(lesson_prompt_amended.1 exEmptyFile).1.mpr (by decide),
    (lesson_prompt_amended.2 cfg0 [] [] [] [] false exEmptyFile).1⟩

set_option maxRecDepth 4096 in
/-- C8 counterexample: one attached file whose extracted text is empty —
so no non-empty source excerpt exists — still produces the strict
instruction, embedded in the prompt, because the `SOURCE (name):` wrapper
alone makes `source_text` truthy. -/
theorem lesson_prompt_cex :
    instruction_mode exEmptyFile = STRICT_INSTR ∧
    STRICT_INSTR <:+: full_prompt cfg0 [] [] [] [] false exEmptyFile ∧
    exEmptyFile.all (fun p => p.2.isEmpty) = true := by
  refine ⟨by decide, ?_, by decide⟩
  exact ⟨LP1 ++ reprConfig cfg0 ++ LP2 ++ [] ++ LP3 ++ [] ++ LP4 ++ [] ++ LP5 ++ [] ++
    LP6 ++ access_mode false ++ LP7,
    LP8 ++ (source_text exEmptyFile).take 20000 ++ LP9, by decide⟩
